import Mathlib

/-!
# Site monitor bot (`main.go`): shallow embedding and verified properties

The Go program keeps a process-wide map `SiteList : map[string]int` from URL to status,
probes every URL in a perpetual `monitor` loop, notifies a chat about every entry whose
status is not 200, and serves chat commands that add, delete and list entries.

Modelling choices
* The Go map is the nil map or a table, an association list with unique keys (`AList`).
  On a table `m[k] = v` is `AList.insert`, `delete(m, k)` is `AList.erase`, `range m` visits
  the entries of the list; on the nil map a write panics, `delete` does nothing and `range`
  visits nothing.  Go leaves the iteration order unspecified; no statement below depends on
  it.
* The two goroutines (monitor loop, command loop) are modelled one step at a time on an
  explicit `State`; interleavings are not modelled.
* Everything outside the process (HTTP, TLS, the clock, the file system, the JSON encoder,
  the scraping helper) is a field of `World`.
* `bot.Send` is recorded in `State.sent`, `log.Printf` in `State.log`, `tls.Dial` in
  `State.dialed`.
* A Go panic is the `panic` field of `Result`; `state` is then the state at the moment of
  the panic.
* `float64` arithmetic is modelled exactly: a finite float is `m * 2 ^ e`, every operation
  rounds the exact rational result to 53 significant bits, ties to even.
-/

set_option maxRecDepth 100000

namespace SiteMonitor

/-! ## Data model -/

/-- The Go type `map[string]int` of the global `SiteList`: the nil map, or a table of entries
with unique keys.  `init` makes an empty table; `json.Unmarshal` in `load_list` leaves the nil
map when the configuration file holds the JSON value `null`. -/
inductive SiteMap where
  | nil
  | table (t : AList (fun _ : String => Int))
deriving DecidableEq

/-- The entries that `range m` visits; none on the nil map. -/
def SiteMap.entries : SiteMap → List (Sigma fun _ : String => Int)
  | .nil => []
  | .table t => t.entries

/-- The keys that `range m` visits; none on the nil map. -/
def SiteMap.keys : SiteMap → List String
  | .nil => []
  | .table t => t.keys

/-- The value stored for the key `k`, if any; a read of the nil map finds nothing. -/
def SiteMap.lookup : SiteMap → String → Option Int
  | .nil, _ => none
  | .table t, k => t.lookup k

/-- The statement `m[k] = v`: the new map, or nothing when `m` is the nil map (Go then panics
with `assignment to entry in nil map`). -/
def SiteMap.store : SiteMap → String → Int → Option SiteMap
  | .nil, _, _ => none
  | .table t, k, v => some (.table (t.insert k v))

/-- The builtin `delete(m, k)`; it does nothing on the nil map. -/
def SiteMap.delete : SiteMap → String → SiteMap
  | .nil, _ => .nil
  | .table t, k => .table (t.erase k)

/-- The key `k` is present in the map. -/
instance : Membership String SiteMap :=
  ⟨fun m k => k ∈ m.keys⟩

/-- Presence of a key is decidable. -/
instance (k : String) (m : SiteMap) : Decidable (k ∈ m) :=
  inferInstanceAs (Decidable (k ∈ m.keys))

/-- The value `tgbotapi.NewMessage(chatID, text)` handed to `bot.Send`. -/
structure MessageConfig where
  ChatID : Int
  Text : String
deriving DecidableEq

/-- The command-line flags read by the functions modelled here. -/
structure Config where
  chatID : Int
  sslDaysToExipireAlert : Int

/-- The global `SiteList`, the file written by `save_list`, and the effects performed so far. -/
structure State where
  SiteList : SiteMap
  configFile : Option SiteMap
  sent : List MessageConfig
  log : List String
  dialed : List String

/-- A run of a piece of code: the state it left, and the panic value if it panicked. -/
structure Result where
  state : State
  panic : Option String

/-- The fields of `http.Response` that `monitor` reads. -/
structure Response where
  Status : String
  StatusCode : Int

/-- The fields of `url.URL` that `monitor` reads. -/
structure URL where
  Scheme : String
  Host : String

/-- An `x509.Certificate`; `NotAfter` is an instant in nanoseconds. -/
structure Certificate where
  NotAfter : Int

/-- A `tls.Conn` after the handshake: the certificates of `ConnectionState()`. -/
structure Conn where
  PeerCertificates : List Certificate

/-- The world outside the process, as the code observes it.
`now site i` is the reading of the clock when the `i`-th certificate of `site` is tested;
`writeFile` gives the error of `ioutil.WriteFile` if any; `marshal` is `json.Marshal` on the
map; `testdata` is the scraping helper of the `load_data` command (an error is a panic). -/
structure World where
  get : String → Except String Response
  parse : String → Except String URL
  dial : String → Except String Conn
  now : String → Nat → Int
  writeFile : SiteMap → Option String
  marshal : SiteMap → String
  testdata : String → Except String String

/-- The fields of `tgbotapi.User` that `main` reads. -/
structure User where
  UserName : String

/-- The fields of `tgbotapi.Chat` that `main` reads. -/
structure Chat where
  ID : Int

/-- A `tgbotapi.Message` with the results of its methods `Command()` and
`CommandArguments()`.  Telegram fills `From` and `Chat` in every message update. -/
structure Message where
  From : User
  Chat : Chat
  Text : String
  Command : String
  CommandArguments : String

/-- A `tgbotapi.Update`; `Message` is a pointer and may be nil. -/
structure Update where
  Message : Option Message

/-! ## `float64` arithmetic -/

/-- A finite `float64` value `m * 2 ^ e`. -/
structure Float64 where
  m : Int
  e : Int
deriving DecidableEq

/-- Binary logarithm by repeated halving; `fuel` bounds the number of halvings. -/
def log2Fuel : Nat → Nat → Nat
  | 0, _ => 0
  | fuel + 1, n => if n < 2 then 0 else log2Fuel fuel (n / 2) + 1

/-- The integer part of the binary logarithm of `n`. -/
def ilog2 (n : Nat) : Nat := log2Fuel n n

/-- The integer part of the binary logarithm of the positive rational `a / d`. -/
def floorLog2 (a d : Nat) : Int :=
  let e0 : Int := (ilog2 a : Int) - (ilog2 d : Int)
  if d * 2 ^ e0.toNat ≤ a * 2 ^ (-e0).toNat then e0 else e0 - 1

/-- The integer nearest to `a / d`, a tie going to the even neighbour. -/
def roundHalfEven (a d : Nat) : Nat :=
  let q := a / d
  let r := a % d
  if 2 * r < d then q else if d < 2 * r then q + 1 else if q % 2 = 0 then q else q + 1

/-- The `float64` nearest to the rational `n / d` (ties to even): 53 significant bits,
the exponent of the last bit never below `-1074`.  Overflow to infinity is not modelled;
no value in this program comes near it. -/
def roundRat (n : Int) (d : Nat) : Float64 :=
  if n = 0 then ⟨0, 0⟩ else
    let a := n.natAbs
    let s := max (floorLog2 a d - 52) (-1074)
    ⟨n.sign * (roundHalfEven (a * 2 ^ (-s).toNat) (d * 2 ^ s.toNat) : Nat), s⟩

/-- Numerator of the exact value of a float over the denominator `Float64.den`. -/
def Float64.num (x : Float64) : Int := x.m * 2 ^ x.e.toNat

/-- Denominator of the exact value of a float. -/
def Float64.den (x : Float64) : Nat := 2 ^ (-x.e).toNat

/-- The Go conversion `float64(n)` of an integer. -/
def float64 (n : Int) : Float64 := roundRat n 1

/-- The Go operation `x + y` on `float64`. -/
def Float64.add (x y : Float64) : Float64 :=
  roundRat (x.num * y.den + y.num * x.den) (x.den * y.den)

/-- The Go operation `x / y` on `float64`, for `y` not zero. -/
def Float64.div (x y : Float64) : Float64 :=
  roundRat (y.num.sign * (x.num * y.den)) (x.den * y.num.natAbs)

/-- The Go conversion `int64(x)` of a float: the fraction is discarded (truncation
towards zero).  Every float converted in this program is within the `int64` range. -/
def int64 (x : Float64) : Int := Int.tdiv x.num x.den

/-! ## Package `time` -/

/-- A `time.Duration`: a signed 64-bit count of nanoseconds. -/
abbrev Duration := Int

/-- The constant `time.Hour`. -/
def Hour : Duration := 3600000000000

/-- The largest `time.Duration`. -/
def maxDuration : Duration := 2 ^ 63 - 1

/-- The smallest `time.Duration`. -/
def minDuration : Duration := -2 ^ 63

/-- The function `time.Since(t)`, that is `time.Now().Sub(t)`, with `now` the reading of the
clock: the difference of the two instants, saturated to the range of `Duration`. -/
def Since (now t : Int) : Duration :=
  if now - t < minDuration then minDuration
  else if maxDuration < now - t then maxDuration
  else now - t

/-- The method `Duration.Hours`:
`hour := d / Hour; nsec := d % Hour; return float64(hour) + float64(nsec)/(60*60*1e9)`. -/
def Hours (d : Duration) : Float64 :=
  let hour := Int.tdiv d Hour
  let nsec := Int.tmod d Hour
  Float64.add (float64 hour) (Float64.div (float64 nsec) (float64 (60 * 60 * 1000000000)))

/-! ## `main.go` -/

/-- Negation on `int64`, as in `-(sslDaysToExipireAlert)`: it wraps at `-2 ^ 63`. -/
def neg64 (x : Int) : Int := (-x + 2 ^ 63) % 2 ^ 64 - 2 ^ 63

/-- The value `daysToExprire := int64(difference.Hours() / 24)` of `monitor`. -/
def daysToExprire (difference : Duration) : Int :=
  int64 (Float64.div (Hours difference) (float64 24))

/-- The test `daysToExprire > -(sslDaysToExipireAlert)` of `monitor` on one certificate,
with `now` the reading of the clock at `time.Since(cert.NotAfter)`. -/
def expiringSoon (cfg : Config) (now : Int) (cert : Certificate) : Bool :=
  decide (daysToExprire (Since now cert.NotAfter) > neg64 cfg.sslDaysToExipireAlert)

/-- The text `fmt.Sprintf("CRIT - %s ; status: %v", site, status)`. -/
def alarm (site : String) (status : Int) : String :=
  "CRIT - " ++ site ++ " ; status: " ++ toString status

/-- One iteration of the loop of `send_notifications`. -/
def notifyEntry (cfg : Config) (st : State) (e : Sigma fun _ : String => Int) : State :=
  if e.2 ≠ 200 then { st with sent := st.sent ++ [⟨cfg.chatID, alarm e.1 e.2⟩] } else st

/-- The function `send_notifications`: one `bot.Send` per entry whose status is not 200. -/
def send_notifications (cfg : Config) (st : State) : State :=
  st.SiteList.entries.foldl (notifyEntry cfg) st

/-- The function `save_list`: it panics when the file cannot be written.
(`json.Marshal` cannot fail on a `map[string]int`.) -/
def save_list (w : World) (st : State) : Result :=
  match w.writeFile st.SiteList with
  | some err => ⟨st, some err⟩
  | none => ⟨{ st with configFile := some st.SiteList }, none⟩

/-- The panic value of a nil pointer dereference. -/
def nilDereference : String :=
  "runtime error: invalid memory address or nil pointer dereference"

/-- The panic value of a write to the nil map. -/
def nilMapAssignment : String :=
  "assignment to entry in nil map"

/-- The statement `SiteList[k] = v`: it panics when `SiteList` is the nil map. -/
def assign (st : State) (k : String) (v : Int) : Result :=
  match st.SiteList.store k v with
  | none => ⟨st, some nilMapAssignment⟩
  | some m => ⟨{ st with SiteList := m }, none⟩

/-- The loop `for _, cert := range certs` of `monitor`, from the certificate of index `i`. -/
def checkCerts (cfg : Config) (w : World) (site : String) :
    List Certificate → Nat → State → Result
  | [], _, st => ⟨st, none⟩
  | cert :: rest, i, st =>
    let difference := Since (w.now site i) cert.NotAfter
    if daysToExprire difference > neg64 cfg.sslDaysToExipireAlert then
      match assign
          { st with log := st.log ++ ["Status of " ++ site ++ ": 2 - certificate is expiring"] }
          site 2 with
      | ⟨st1, some p⟩ => ⟨st1, some p⟩
      | ⟨st1, none⟩ => checkCerts cfg w site rest (i + 1) st1
    else checkCerts cfg w site rest (i + 1) st

/-- The body of the loop `for site, _ := range SiteList` of `monitor`. -/
def probe (cfg : Config) (w : World) (st : State) (site : String) : Result :=
  match w.get site with
  | .error err =>
    match assign st site 1 with
    | ⟨st1, some p⟩ => ⟨st1, some p⟩
    | ⟨st1, none⟩ =>
      ⟨{ st1 with
         log := st1.log ++ ["Status of " ++ site ++ ": 1 - Connection error: " ++ err] }, none⟩
  | .ok response =>
    match assign { st with log := st.log ++ ["Status of " ++ site ++ ": " ++ response.Status] }
        site response.StatusCode with
    | ⟨st1, some p⟩ => ⟨st1, some p⟩
    | ⟨st1, none⟩ =>
      match w.parse site with
      | .error err => ⟨st1, some err⟩
      | .ok siteUrl =>
        if siteUrl.Scheme = "https" then
          let st2 : State := { st1 with dialed := st1.dialed ++ [siteUrl.Host ++ ":443"] }
          match w.dial (siteUrl.Host ++ ":443") with
          | .error err =>
            -- `conn` is nil: the error is logged, then `conn.ConnectionState()` dereferences it
            ⟨{ st2 with
               log := st2.log ++ ["Error in SSL dial to " ++ siteUrl.Host ++ ": " ++ err] },
             some nilDereference⟩
          | .ok conn => checkCerts cfg w site conn.PeerCertificates 0 st2
        else ⟨st1, none⟩

/-- The loop `for site, _ := range SiteList` over the keys still to visit; a panic ends it. -/
def probeAll (cfg : Config) (w : World) : List String → State → Result
  | [], st => ⟨st, none⟩
  | site :: rest, st =>
    match probe cfg w st site with
    | ⟨st1, none⟩ => probeAll cfg w rest st1
    | ⟨st1, some p⟩ => ⟨st1, some p⟩

/-- One turn of the loop `for { ... }` of `monitor` (without the final `time.Sleep`). -/
def monitorCycle (cfg : Config) (w : World) (st : State) : Result :=
  match save_list w st with
  | ⟨st1, some p⟩ => ⟨st1, some p⟩
  | ⟨st1, none⟩ =>
    match probeAll cfg w st1.SiteList.keys st1 with
    | ⟨st2, some p⟩ => ⟨st2, some p⟩
    | ⟨st2, none⟩ => ⟨send_notifications cfg st2, none⟩

/-- The function `monitor`: one turn per world of the list, until a panic. -/
def monitor (cfg : Config) : List World → State → Result
  | [], st => ⟨st, none⟩
  | w :: ws, st =>
    match monitorCycle cfg w st with
    | ⟨st1, none⟩ => monitor cfg ws st1
    | ⟨st1, some p⟩ => ⟨st1, some p⟩

/-- The global `HelpMsg`. -/
def HelpMsg : String :=
  "Это простой мониторинг доступности сайтов. Он обходит сайты в списке и ждет что он ответит 200, если возвращается не 200 или ошибки подключения, то бот пришлет уведомления в чат\n" ++
  "Список доступных комманд:\n" ++
  "/site_list - покажет список сайтов в мониторинге и их статусы (про статусы ниже)\n" ++
  "/site_add [url] - добавит url в список мониторинга\n" ++
  "/site_del [url] - удалит url из списка мониторинга\n" ++
  "/help - отобразить это сообщение\n" ++
  "\n" ++
  "У сайтов может быть несколько статусов:\n" ++
  "0 - никогда не проверялся (ждем проверки)\n" ++
  "1 - ошибка подключения \n" ++
  "2 - истекает сертификат \n" ++
  "200 - ОК-статус" ++
  "все остальные http-коды считаются некорректными"

/-- The `switch update.Message.Command()` of `main`: the map and the reply it leaves,
or the panic of the write to the nil map or of `testdata`. -/
def dispatch (w : World) (sites : SiteMap) (msg : Message) : Except String (SiteMap × String) :=
  if msg.Command = "site_list" then .ok (sites, w.marshal sites)
  else if msg.Command = "site_add" then
    if msg.CommandArguments ≠ "" then
      match sites.store msg.CommandArguments 0 with
      | none => .error nilMapAssignment
      | some m => .ok (m, "Site added to monitoring list")
    else .ok (sites, "Url is required")
  else if msg.Command = "site_del" then
    if msg.CommandArguments ≠ "" then
      .ok (sites.delete msg.CommandArguments, "Site deleted from monitoring list")
    else .ok (sites, "Url is required")
  else if msg.Command = "help" then .ok (sites, HelpMsg)
  else if msg.Command = "load_data" then
    if msg.CommandArguments ≠ "" then
      match w.testdata msg.CommandArguments with
      | .ok out => .ok (sites, out)
      | .error p => .error p
    else .ok (sites, "Url is required")
  else .ok (sites, "")

/-- The body of the loop `for update := range updates` of `main`. -/
def handleUpdate (w : World) (st : State) (update : Update) : Result :=
  match update.Message with
  | none => ⟨st, none⟩
  | some msg =>
    let st1 : State := { st with log := st.log ++ ["[" ++ msg.From.UserName ++ "] " ++ msg.Text] }
    match dispatch w st1.SiteList msg with
    | .error p => ⟨st1, some p⟩
    | .ok (sites, reply) =>
      ⟨{ st1 with SiteList := sites, sent := st1.sent ++ [⟨msg.Chat.ID, reply⟩] }, none⟩

/-! ## When a cycle runs to its end -/

/-- The probe of `site`, run on a map that is not nil, reaches its end: the GET fails, or the
URL parses and, for the scheme `https`, the TLS dial succeeds.  In the other cases `probe`
panics. -/
def probeCompletes (w : World) (site : String) : Bool :=
  match w.get site with
  | .error _ => true
  | .ok _ =>
    match w.parse site with
    | .error _ => false
    | .ok siteUrl =>
      if siteUrl.Scheme = "https" then
        match w.dial (siteUrl.Host ++ ":443") with
        | .error _ => false
        | .ok _ => true
      else true

/-- The cycle reaches the notifier: the file is written and every probe reaches its end. -/
def cycleCompletes (w : World) (st : State) : Bool :=
  (w.writeFile st.SiteList).isNone && st.SiteList.keys.all (probeCompletes w)

/-! ## Exact values of floats -/

/-- The exact value of a float, as a rational number. -/
def Float64.toRat (x : Float64) : ℚ := (x.m : ℚ) * (2 : ℚ) ^ x.e

/-- The float of opposite sign. -/
def Float64.neg (x : Float64) : Float64 := ⟨-x.m, x.e⟩

/-! ## Concrete worlds and states -/

/-- A world in which nothing answers: every request fails. -/
def deadWorld : World where
  get := fun _ => .error "dial tcp: connection refused"
  parse := fun _ => .error "parse error"
  dial := fun _ => .error "dial tcp: connection refused"
  now := fun _ _ => 0
  writeFile := fun _ => none
  marshal := fun _ => ""
  testdata := fun _ => .error nilDereference

/-- The state of a process that has just started with an empty map. -/
def emptyState : State := ⟨.table ∅, none, [], [], []⟩

/-- The state of a process that has just loaded a configuration file holding `null`: the map
is nil. -/
def nilState : State := ⟨.nil, none, [], [], []⟩

/-- A freshly loaded map with the single site `http://down.example`. -/
def downState : State := ⟨.table (AList.insert "http://down.example" 0 ∅), none, [], [], []⟩

/-- A map in which `http://down.example` was last seen with status 500, besides a healthy
site. -/
def failingState : State :=
  ⟨.table ((AList.insert "http://up.example" 200 ∅).insert "http://down.example" 500),
    none, [], [], []⟩

/-- A message of user `op` in chat 7 that carries a command and its argument text. -/
def commandMessage (cmd arg : String) : Message :=
  ⟨⟨"op"⟩, ⟨7⟩, "/" ++ cmd ++ " " ++ arg, cmd, arg⟩

/-- The default flags: the chat 79039545 and a threshold of 10 days. -/
def cfg10 : Config := ⟨79039545, 10⟩

/-- An https URL with an explicit port. -/
def portSite : String := "https://example.com:8443"

/-- A world in which `portSite` answers 200 and every TLS dial fails; the address
dialed for `portSite` is `example.com:8443:443`. -/
def portWorld : World where
  get := fun site =>
    if site = portSite then .ok ⟨"200 OK", 200⟩ else .error "dial tcp: connection refused"
  parse := fun site =>
    if site = portSite then .ok ⟨"https", "example.com:8443"⟩ else .ok ⟨"http", "down.example"⟩
  dial := fun _ => .error "dial tcp: address example.com:8443:443: too many colons in address"
  now := fun _ _ => 0
  writeFile := fun _ => none
  marshal := fun _ => ""
  testdata := fun _ => .error nilDereference

/-- A freshly loaded map with two sites, `portSite` first in the iteration order. -/
def twoSites : State :=
  ⟨.table ((AList.insert "http://down.example" 0 ∅).insert portSite 0), none, [], [], []⟩

/-- The same two sites, `http://down.example` first in the iteration order. -/
def downFirst : State :=
  ⟨.table ((AList.insert portSite 0 ∅).insert "http://down.example" 0), none, [], [], []⟩

/-- The number of nanoseconds in 24 hours. -/
def day : Int := 24 * Hour

/-- A world in which every site answers 200 over https and presents a chain of two
certificates, expiring 100 days and 3 days after the clock reading 0. -/
def certWorld : World where
  get := fun _ => .ok ⟨"200 OK", 200⟩
  parse := fun _ => .ok ⟨"https", "a.example"⟩
  dial := fun _ => .ok ⟨[⟨100 * day⟩, ⟨3 * day⟩]⟩
  now := fun _ _ => 0
  writeFile := fun _ => none
  marshal := fun _ => ""
  testdata := fun _ => .error nilDereference

/-! ## The map -/

/-- A map that is not nil is a table. -/
theorem exists_table (m : SiteMap) (h : m ≠ .nil) : ∃ t, m = .table t := by
  cases m with
  | nil => exact absurd rfl h
  | table t => exact ⟨t, rfl⟩

/-- A map that holds a key is not nil. -/
theorem ne_nil_of_mem (m : SiteMap) (k : String) (h : k ∈ m) : m ≠ .nil := by
  intro hm
  subst hm
  cases h

/-- A write to the nil map panics and leaves the state. -/
theorem assign_nil (st : State) (k : String) (v : Int) (h : st.SiteList = .nil) :
    assign st k v = ⟨st, some nilMapAssignment⟩ := by
  unfold assign
  rw [h]
  rfl

/-- A write to a table stores the value. -/
theorem assign_table (st : State) (k : String) (v : Int) (t : AList (fun _ : String => Int))
    (h : st.SiteList = .table t) :
    assign st k v = ⟨{ st with SiteList := .table (t.insert k v) }, none⟩ := by
  unfold assign
  rw [h]
  rfl

/-- Deleting an absent key leaves the map as it is. -/
theorem delete_of_not_mem (u : String) (r : SiteMap) (h : u ∉ r) : r.delete u = r := by
  cases r with
  | nil => rfl
  | table t =>
    have h1 : u ∉ t.entries.keys := h
    simp only [SiteMap.delete, SiteMap.table.injEq]
    apply AList.ext
    simp [AList.erase, List.kerase_of_not_mem_keys h1]


/-! ## The notifier and the command loop -/

/-- The loop of `send_notifications` over any list of entries. -/
theorem foldl_notifyEntry (cfg : Config) (es : List (Sigma fun _ : String => Int)) (st : State) :
    (es.foldl (notifyEntry cfg) st).SiteList = st.SiteList ∧
    (es.foldl (notifyEntry cfg) st).sent =
      st.sent ++ (es.filter (fun e => e.2 ≠ 200)).map (fun e => ⟨cfg.chatID, alarm e.1 e.2⟩) := by
  induction es generalizing st with
  | nil => simp
  | cons e es ih =>
    rw [List.foldl_cons]
    obtain ⟨h1, h2⟩ := ih (notifyEntry cfg st e)
    rw [h1, h2]
    by_cases h : e.2 = 200
    · simp [notifyEntry, h]
    · simp [notifyEntry, h]

/-- Claim C3. One call of `send_notifications` leaves the map unchanged and appends to the
messages sent exactly one message per entry whose status is not 200, in the order of the
entries, none for an entry whose status is 200; the text for the entry `(url, status)` is
`"CRIT - " ++ url ++ " ; status: " ++ decimal status`.  So the number of messages sent is the
number of entries whose status differs from 200. -/
theorem send_notifications_spec (cfg : Config) (st : State) :
    (send_notifications cfg st).SiteList = st.SiteList ∧
    (send_notifications cfg st).sent =
      st.sent ++ (st.SiteList.entries.filter (fun e => e.2 ≠ 200)).map
        (fun e => ⟨cfg.chatID, "CRIT - " ++ e.1 ++ " ; status: " ++ toString e.2⟩) ∧
    (send_notifications cfg st).sent.length =
      st.sent.length + st.SiteList.entries.countP (fun e => e.2 ≠ 200) := by
  obtain ⟨h1, h2⟩ := foldl_notifyEntry cfg st.SiteList.entries st
  refine ⟨h1, h2, ?_⟩
  unfold send_notifications
  rw [h2, List.length_append, List.length_map, List.countP_eq_length_filter]

/-- The result of handling `site_add` with an argument on a table. -/
theorem handleUpdate_site_add (w : World) (st : State) (msg : Message)
    (t : AList (fun _ : String => Int)) (ht : st.SiteList = .table t)
    (hc : msg.Command = "site_add") (ha : msg.CommandArguments ≠ "") :
    handleUpdate w st ⟨some msg⟩ =
      ⟨{ st with
          log := st.log ++ ["[" ++ msg.From.UserName ++ "] " ++ msg.Text],
          SiteList := .table (t.insert msg.CommandArguments 0),
          sent := st.sent ++ [⟨msg.Chat.ID, "Site added to monitoring list"⟩] }, none⟩ := by
  simp [handleUpdate, dispatch, hc, ha, ht, SiteMap.store]

/-- The result of handling `site_add` with an argument on the nil map. -/
theorem handleUpdate_site_add_nil (w : World) (st : State) (msg : Message)
    (ht : st.SiteList = .nil)
    (hc : msg.Command = "site_add") (ha : msg.CommandArguments ≠ "") :
    handleUpdate w st ⟨some msg⟩ =
      ⟨{ st with log := st.log ++ ["[" ++ msg.From.UserName ++ "] " ++ msg.Text] },
        some nilMapAssignment⟩ := by
  simp [handleUpdate, dispatch, hc, ha, ht, SiteMap.store]

/-- The result of handling `site_del` with an argument. -/
theorem handleUpdate_site_del (w : World) (st : State) (msg : Message)
    (hc : msg.Command = "site_del") (ha : msg.CommandArguments ≠ "") :
    handleUpdate w st ⟨some msg⟩ =
      ⟨{ st with
          log := st.log ++ ["[" ++ msg.From.UserName ++ "] " ++ msg.Text],
          SiteList := st.SiteList.delete msg.CommandArguments,
          sent := st.sent ++ [⟨msg.Chat.ID, "Site deleted from monitoring list"⟩] }, none⟩ := by
  simp [handleUpdate, dispatch, hc, ha]

/-- Claim C7 (the code departs from it on the nil map). Handling `site_add u` with `u` not
empty on a map that is not nil does not panic and yields the map that maps `u` to 0 and every
other key as before; `u` then has exactly one entry, and handling the same command again
leaves the map as it is.  On the nil map the write panics: the map stays nil, so `u` is not
added, and no reply is sent. -/
theorem site_add_spec (w : World) (st : State) (msg : Message)
    (hc : msg.Command = "site_add") (ha : msg.CommandArguments ≠ "") :
    (st.SiteList = .nil →
      (handleUpdate w st ⟨some msg⟩).panic = some nilMapAssignment ∧
      (handleUpdate w st ⟨some msg⟩).state.SiteList = .nil ∧
      (handleUpdate w st ⟨some msg⟩).state.sent = st.sent) ∧
    (st.SiteList ≠ .nil →
      (handleUpdate w st ⟨some msg⟩).panic = none ∧
      (∀ k, (handleUpdate w st ⟨some msg⟩).state.SiteList.lookup k =
        if k = msg.CommandArguments then some 0 else st.SiteList.lookup k) ∧
      (handleUpdate w st ⟨some msg⟩).state.SiteList.keys.count msg.CommandArguments = 1 ∧
      (handleUpdate w (handleUpdate w st ⟨some msg⟩).state ⟨some msg⟩).state.SiteList =
        (handleUpdate w st ⟨some msg⟩).state.SiteList) := by
  constructor
  · intro hnil
    rw [handleUpdate_site_add_nil w st msg hnil hc ha]
    exact ⟨rfl, hnil, rfl⟩
  · intro hnn
    obtain ⟨t, ht⟩ := exists_table _ hnn
    rw [handleUpdate_site_add w st msg t ht hc ha]
    simp only
    rw [handleUpdate_site_add w _ msg (t.insert msg.CommandArguments 0) rfl hc ha]
    refine ⟨trivial, ?_, ?_, ?_⟩
    · intro k
      simp only [SiteMap.lookup, ht]
      by_cases hk : k = msg.CommandArguments
      · subst hk
        simp [AList.lookup_insert]
      · simp [hk, AList.lookup_insert_ne hk]
    · simp only [SiteMap.keys]
      apply List.count_eq_one_of_mem (AList.keys_nodup _)
      rw [← AList.mem_keys, AList.mem_insert]
      exact Or.inl rfl
    · simp only [AList.insert_insert]

/-- Witness for C7: on the nil map `site_add http://down.example` panics, adds nothing and
sends nothing; on `failingState` it resets the status 500 to 0 and leaves the other site at
200. -/
theorem site_add_spec_witness :
    (commandMessage "site_add" "http://down.example").Command = "site_add" ∧
    (commandMessage "site_add" "http://down.example").CommandArguments ≠ "" ∧
    (nilState.SiteList = .nil ∧
      (handleUpdate deadWorld nilState
        ⟨some (commandMessage "site_add" "http://down.example")⟩).panic =
          some nilMapAssignment ∧
      (handleUpdate deadWorld nilState
        ⟨some (commandMessage "site_add" "http://down.example")⟩).state.SiteList = .nil ∧
      (handleUpdate deadWorld nilState
        ⟨some (commandMessage "site_add" "http://down.example")⟩).state.sent = []) ∧
    (failingState.SiteList.lookup "http://down.example" = some 500 ∧
      (handleUpdate deadWorld failingState
        ⟨some (commandMessage "site_add" "http://down.example")⟩).state.SiteList.lookup
          "http://down.example" = some 0 ∧
      (handleUpdate deadWorld failingState
        ⟨some (commandMessage "site_add" "http://down.example")⟩).state.SiteList.lookup
          "http://up.example" = some 200 ∧
      (handleUpdate deadWorld failingState
        ⟨some (commandMessage "site_add" "http://down.example")⟩).state.SiteList.keys.count
          "http://down.example" = 1) :=
  have hn := (site_add_spec deadWorld nilState
    (commandMessage "site_add" "http://down.example") rfl (by decide)).1 rfl
  have h := (site_add_spec deadWorld failingState
    (commandMessage "site_add" "http://down.example") rfl (by decide)).2 (by decide)
  ⟨rfl, by decide, ⟨rfl, hn.1, hn.2.1, hn.2.2⟩,
    ⟨by decide, (h.2.1 "http://down.example").trans (if_pos rfl),
      (h.2.1 "http://up.example").trans (by decide), h.2.2.1⟩⟩


/-- Claim C8. Handling `site_del u` with `u` not empty does not panic and yields a map without
`u` in which every other key is as before; when `u` was absent the map is unchanged, and the
reply is the same in both cases. -/
theorem site_del_spec (w : World) (st : State) (msg : Message)
    (hc : msg.Command = "site_del") (ha : msg.CommandArguments ≠ "") :
    (handleUpdate w st ⟨some msg⟩).panic = none ∧
    msg.CommandArguments ∉ (handleUpdate w st ⟨some msg⟩).state.SiteList ∧
    (∀ k, k ≠ msg.CommandArguments →
      (handleUpdate w st ⟨some msg⟩).state.SiteList.lookup k = st.SiteList.lookup k) ∧
    (msg.CommandArguments ∉ st.SiteList →
      (handleUpdate w st ⟨some msg⟩).state.SiteList = st.SiteList) ∧
    (handleUpdate w st ⟨some msg⟩).state.sent =
      st.sent ++ [⟨msg.Chat.ID, "Site deleted from monitoring list"⟩] := by
  rw [handleUpdate_site_del w st msg hc ha]
  refine ⟨rfl, ?_, ?_, ?_, rfl⟩
  · cases hm : st.SiteList with
    | nil => exact fun h => nomatch h
    | table t =>
      intro h
      have h1 : msg.CommandArguments ∈ t.erase msg.CommandArguments := h
      simp [AList.mem_erase] at h1
  · intro k hk
    cases hm : st.SiteList with
    | nil => rfl
    | table t => exact AList.lookup_erase_ne hk
  · intro h
    exact delete_of_not_mem _ _ h

/-- Witness for C8: `site_del http://down.example` on `failingState` removes the site and
leaves the other one at 200; the reply is the usual one. -/
theorem site_del_spec_witness :
    (commandMessage "site_del" "http://down.example").Command = "site_del" ∧
    (commandMessage "site_del" "http://down.example").CommandArguments ≠ "" ∧
    (handleUpdate deadWorld failingState
      ⟨some (commandMessage "site_del" "http://down.example")⟩).panic = none ∧
    "http://down.example" ∉ (handleUpdate deadWorld failingState
      ⟨some (commandMessage "site_del" "http://down.example")⟩).state.SiteList ∧
    (handleUpdate deadWorld failingState
      ⟨some (commandMessage "site_del" "http://down.example")⟩).state.SiteList.lookup
        "http://up.example" = some 200 ∧
    (handleUpdate deadWorld failingState
      ⟨some (commandMessage "site_del" "http://down.example")⟩).state.sent =
      [⟨7, "Site deleted from monitoring list"⟩] :=
  have h := site_del_spec deadWorld failingState
    (commandMessage "site_del" "http://down.example") rfl (by decide)
  ⟨rfl, by decide, h.1, h.2.1, (h.2.2.1 "http://up.example" (by decide)).trans (by decide),
    h.2.2.2.2⟩

/-- Counterexample for C9. The reply to `site_add` without argument is `Url is required`,
which is not the text `URL is required`. -/
theorem empty_argument_reply_text :
    (handleUpdate deadWorld emptyState ⟨some (commandMessage "site_add" "")⟩).state.sent =
      [⟨7, "Url is required"⟩] ∧
    (handleUpdate deadWorld emptyState ⟨some (commandMessage "site_add" "")⟩).state.sent ≠
      [⟨7, "URL is required"⟩] := by
  decide

/-- Claim C9, amended. Handling `site_add` or `site_del` with an empty argument does not
panic, leaves the map unchanged and replies `Url is required` to the chat of the message. -/
theorem empty_argument_spec (w : World) (st : State) (msg : Message)
    (hc : msg.Command = "site_add" ∨ msg.Command = "site_del")
    (ha : msg.CommandArguments = "") :
    (handleUpdate w st ⟨some msg⟩).panic = none ∧
    (handleUpdate w st ⟨some msg⟩).state.SiteList = st.SiteList ∧
    (handleUpdate w st ⟨some msg⟩).state.sent = st.sent ++ [⟨msg.Chat.ID, "Url is required"⟩] := by
  rcases hc with hc | hc <;> simp [handleUpdate, dispatch, hc, ha]

/-- Witness for C9: `site_del` without argument on `downState`. -/
theorem empty_argument_spec_witness :
    ((commandMessage "site_del" "").Command = "site_add" ∨
      (commandMessage "site_del" "").Command = "site_del") ∧
    (commandMessage "site_del" "").CommandArguments = "" ∧
    (handleUpdate deadWorld downState ⟨some (commandMessage "site_del" "")⟩).panic = none ∧
    (handleUpdate deadWorld downState ⟨some (commandMessage "site_del" "")⟩).state.SiteList =
      downState.SiteList ∧
    (handleUpdate deadWorld downState ⟨some (commandMessage "site_del" "")⟩).state.sent =
      downState.sent ++ [⟨7, "Url is required"⟩] :=
  ⟨Or.inr rfl, rfl,
    empty_argument_spec deadWorld downState (commandMessage "site_del" "") (Or.inr rfl) rfl⟩

/-- Counterexample for C10. The command `load_data`, which is none of `site_list`, `site_add`,
`site_del`, `help`, is answered: without argument the reply is `Url is required`. -/
theorem load_data_replies :
    (handleUpdate deadWorld emptyState ⟨some (commandMessage "load_data" "")⟩).state.sent =
      [⟨7, "Url is required"⟩] ∧
    (handleUpdate deadWorld emptyState ⟨some (commandMessage "load_data" "")⟩).state.sent ≠
      emptyState.sent := by
  decide

/-- Claim C10, amended. For a command that is none of `site_list`, `site_add`, `site_del`,
`help`, `load_data`, the handler does not panic, leaves the map unchanged, and its single call
of `bot.Send` carries the empty text. -/
theorem unknown_command_spec (w : World) (st : State) (msg : Message)
    (h1 : msg.Command ≠ "site_list") (h2 : msg.Command ≠ "site_add")
    (h3 : msg.Command ≠ "site_del") (h4 : msg.Command ≠ "help")
    (h5 : msg.Command ≠ "load_data") :
    (handleUpdate w st ⟨some msg⟩).panic = none ∧
    (handleUpdate w st ⟨some msg⟩).state.SiteList = st.SiteList ∧
    (handleUpdate w st ⟨some msg⟩).state.sent = st.sent ++ [⟨msg.Chat.ID, ""⟩] := by
  simp [handleUpdate, dispatch, h1, h2, h3, h4, h5]

/-- Witness for C10: the command `start` on `downState`. -/
theorem unknown_command_spec_witness :
    (handleUpdate deadWorld downState ⟨some (commandMessage "start" "")⟩).panic = none ∧
    (handleUpdate deadWorld downState ⟨some (commandMessage "start" "")⟩).state.SiteList =
      downState.SiteList ∧
    (handleUpdate deadWorld downState ⟨some (commandMessage "start" "")⟩).state.sent =
      downState.sent ++ [⟨7, ""⟩] :=
  unknown_command_spec deadWorld downState (commandMessage "start" "")
    (by decide) (by decide) (by decide) (by decide) (by decide)

/-! ## The monitor loop -/

/-- The certificate loop sends nothing and dials nothing. -/
theorem checkCerts_sent (cfg : Config) (w : World) (site : String) (certs : List Certificate)
    (i : Nat) (st : State) :
    (checkCerts cfg w site certs i st).state.sent = st.sent ∧
    (checkCerts cfg w site certs i st).state.dialed = st.dialed := by
  induction certs generalizing i st with
  | nil => exact ⟨rfl, rfl⟩
  | cons cert rest ih =>
    simp only [checkCerts]
    split
    · cases hm : st.SiteList with
      | nil =>
        rw [assign_nil _ _ _ rfl]
        exact ⟨rfl, rfl⟩
      | table t =>
        rw [assign_table _ _ _ t rfl]
        simp only
        rw [(ih _ _).1, (ih _ _).2]
        exact ⟨rfl, rfl⟩
    · exact ih _ _

/-- The certificate loop touches no other key. -/
theorem checkCerts_lookup_ne (cfg : Config) (w : World) (site : String)
    (certs : List Certificate) (i : Nat) (st : State) (k : String) (hk : k ≠ site) :
    (checkCerts cfg w site certs i st).state.SiteList.lookup k = st.SiteList.lookup k := by
  induction certs generalizing i st with
  | nil => rfl
  | cons cert rest ih =>
    simp only [checkCerts]
    split
    · cases hm : st.SiteList with
      | nil =>
        rw [assign_nil _ _ _ rfl]
      | table t =>
        rw [assign_table _ _ _ t rfl]
        simp only
        rw [ih]
        exact AList.lookup_insert_ne hk
    · exact ih _ _

/-- On a map that is not nil the certificate loop does not panic and leaves a map that is
not nil. -/
theorem checkCerts_panic (cfg : Config) (w : World) (site : String)
    (certs : List Certificate) (i : Nat) (st : State) (hnn : st.SiteList ≠ .nil) :
    (checkCerts cfg w site certs i st).panic = none ∧
    (checkCerts cfg w site certs i st).state.SiteList ≠ .nil := by
  induction certs generalizing i st with
  | nil => exact ⟨rfl, hnn⟩
  | cons cert rest ih =>
    simp only [checkCerts]
    obtain ⟨t, ht⟩ := exists_table _ hnn
    split
    · rw [assign_table { st with
        log := st.log ++ ["Status of " ++ site ++ ": 2 - certificate is expiring"] } _ _ t ht]
      simp only
      exact ih _ _ (by simp)
    · exact ih _ _ hnn

/-- Once the status is 2 the certificate loop keeps it. -/
theorem checkCerts_lookup_two (cfg : Config) (w : World) (site : String)
    (certs : List Certificate) (i : Nat) (st : State)
    (h : st.SiteList.lookup site = some 2) :
    (checkCerts cfg w site certs i st).state.SiteList.lookup site = some 2 := by
  induction certs generalizing i st with
  | nil => exact h
  | cons cert rest ih =>
    simp only [checkCerts]
    split
    · cases hm : st.SiteList with
      | nil =>
        rw [hm] at h
        cases h
      | table t =>
        rw [assign_table _ _ _ t rfl]
        simp only
        apply ih
        exact AList.lookup_insert _
    · exact ih _ _ h

/-- The status after the certificate loop on a map that is not nil: 2 if some certificate is
flagged, else unchanged. -/
theorem checkCerts_lookup (cfg : Config) (w : World) (site : String)
    (certs : List Certificate) (i : Nat) (st : State) (hnn : st.SiteList ≠ .nil) :
    ((∃ j cert, certs[j]? = some cert ∧ expiringSoon cfg (w.now site (i + j)) cert = true) →
      (checkCerts cfg w site certs i st).state.SiteList.lookup site = some 2) ∧
    ((¬ ∃ j cert, certs[j]? = some cert ∧ expiringSoon cfg (w.now site (i + j)) cert = true) →
      (checkCerts cfg w site certs i st).state.SiteList.lookup site =
        st.SiteList.lookup site) := by
  induction certs generalizing i st with
  | nil =>
    constructor
    · rintro ⟨j, cert, hj, -⟩
      simp at hj
    · intro _
      rfl
  | cons c rest ih =>
    simp only [checkCerts]
    obtain ⟨t, ht⟩ := exists_table _ hnn
    by_cases hflag : daysToExprire (Since (w.now site i) c.NotAfter) >
        neg64 cfg.sslDaysToExipireAlert
    · rw [if_pos hflag, assign_table { st with
        log := st.log ++ ["Status of " ++ site ++ ": 2 - certificate is expiring"] } _ _ t ht]
      simp only
      constructor
      · intro _
        exact checkCerts_lookup_two cfg w site rest (i + 1) _ (AList.lookup_insert _)
      · intro hno
        exact absurd ⟨0, c, List.getElem?_cons_zero, by simpa [expiringSoon] using hflag⟩ hno
    · rw [if_neg hflag]
      obtain ⟨ih1, ih2⟩ := ih (i + 1) st hnn
      constructor
      · rintro ⟨j, cert, hj, hexp⟩
        cases j with
        | zero =>
          simp only [List.getElem?_cons_zero, Option.some.injEq] at hj
          subst hj
          simp [expiringSoon] at hexp
          exact absurd hexp hflag
        | succ j =>
          apply ih1
          refine ⟨j, cert, by simpa using hj, ?_⟩
          rw [show i + 1 + j = i + (j + 1) by omega]
          exact hexp
      · intro hno
        apply ih2
        rintro ⟨j, cert, hj, hexp⟩
        apply hno
        refine ⟨j + 1, cert, by simpa using hj, ?_⟩
        rw [show i + (j + 1) = i + 1 + j by omega]
        exact hexp

/-- Claim C1. When the GET of `site` succeeds with response `response` (the map then holds
`site`, so it is not nil), the status stored for `site` when its probe stops is 2 if the URL
parses with scheme `https`, the TLS dial succeeds and some certificate of the peer chain
passes the expiring-soon test (whatever the status code is), and it is exactly
`response.StatusCode` in every other case. -/
theorem probe_status (cfg : Config) (w : World) (st : State) (site : String)
    (response : Response) (hmap : st.SiteList ≠ .nil) (hget : w.get site = .ok response) :
    ((∃ siteUrl conn, w.parse site = .ok siteUrl ∧ siteUrl.Scheme = "https" ∧
        w.dial (siteUrl.Host ++ ":443") = .ok conn ∧
        ∃ i cert, conn.PeerCertificates[i]? = some cert ∧
          expiringSoon cfg (w.now site i) cert = true) →
      (probe cfg w st site).state.SiteList.lookup site = some 2) ∧
    ((¬ ∃ siteUrl conn, w.parse site = .ok siteUrl ∧ siteUrl.Scheme = "https" ∧
        w.dial (siteUrl.Host ++ ":443") = .ok conn ∧
        ∃ i cert, conn.PeerCertificates[i]? = some cert ∧
          expiringSoon cfg (w.now site i) cert = true) →
      (probe cfg w st site).state.SiteList.lookup site = some response.StatusCode) := by
  obtain ⟨t, ht⟩ := exists_table _ hmap
  unfold probe
  rw [hget]
  simp only
  rw [assign_table { st with
    log := st.log ++ ["Status of " ++ site ++ ": " ++ response.Status] } _ _ t ht]
  simp only
  cases hparse : w.parse site with
  | error err =>
    simp only
    constructor
    · rintro ⟨siteUrl, conn, h, -⟩
      cases h
    · intro _
      exact AList.lookup_insert _
  | ok siteUrl =>
    simp only
    by_cases hs : siteUrl.Scheme = "https"
    · rw [if_pos hs]
      cases hdial : w.dial (siteUrl.Host ++ ":443") with
      | error err =>
        simp only
        constructor
        · rintro ⟨u, conn, h, -, hd, -⟩
          cases h
          rw [hdial] at hd
          cases hd
        · intro _
          exact AList.lookup_insert _
      | ok conn =>
        simp only
        have key := checkCerts_lookup cfg w site conn.PeerCertificates 0
          { SiteList := .table (AList.insert site response.StatusCode t),
            configFile := st.configFile, sent := st.sent,
            log := st.log ++ ["Status of " ++ site ++ ": " ++ response.Status],
            dialed := st.dialed ++ [siteUrl.Host ++ ":443"] } (by simp)
        simp only [Nat.zero_add] at key
        constructor
        · rintro ⟨u, conn2, h, -, hd, hex⟩
          cases h
          rw [hdial] at hd
          cases hd
          exact key.1 hex
        · intro hno
          rw [key.2 (fun hex => hno ⟨siteUrl, conn, rfl, hs, hdial, hex⟩)]
          exact AList.lookup_insert _
    · rw [if_neg hs]
      constructor
      · rintro ⟨u, conn, h, hs2, -⟩
        cases h
        exact absurd hs2 hs
      · intro _
        exact AList.lookup_insert _

/-- Witness for C1: a site that answers 200 over https and whose second certificate expires
in 3 days is stored with status 2. -/
theorem probe_status_witness :
    downState.SiteList ≠ .nil ∧
    certWorld.get "https://a.example" = .ok ⟨"200 OK", 200⟩ ∧
    expiringSoon cfg10 0 ⟨100 * day⟩ = false ∧
    expiringSoon cfg10 0 ⟨3 * day⟩ = true ∧
    (probe cfg10 certWorld downState "https://a.example").state.SiteList.lookup
      "https://a.example" = some 2 :=
  ⟨by decide, rfl, by decide, by decide,
    (probe_status cfg10 certWorld downState "https://a.example" ⟨"200 OK", 200⟩
      (by decide) rfl).1
      ⟨⟨"https", "a.example"⟩, ⟨[⟨100 * day⟩, ⟨3 * day⟩]⟩, rfl, rfl, rfl, 1, ⟨3 * day⟩, rfl,
        by decide⟩⟩

/-- The probe of a site whose GET fails, on a table. -/
theorem probe_error (cfg : Config) (w : World) (st : State) (site err : String)
    (t : AList (fun _ : String => Int)) (ht : st.SiteList = .table t)
    (hget : w.get site = .error err) :
    probe cfg w st site =
      ⟨{ st with
         SiteList := .table (t.insert site 1),
         log := st.log ++ ["Status of " ++ site ++ ": 1 - Connection error: " ++ err] }, none⟩ := by
  unfold probe
  rw [hget]
  simp only
  rw [assign_table st _ _ t ht]

/-- A probe sends nothing. -/
theorem probe_sent (cfg : Config) (w : World) (st : State) (site : String) :
    (probe cfg w st site).state.sent = st.sent := by
  unfold probe
  by_cases hm : st.SiteList = .nil
  · split
    · rw [assign_nil st _ _ hm]
    · rename_i response _
      rw [assign_nil { st with
        log := st.log ++ ["Status of " ++ site ++ ": " ++ response.Status] } _ _ hm]
  · obtain ⟨t, ht⟩ := exists_table _ hm
    split
    · rw [assign_table st _ _ t ht]
    · rename_i response _
      rw [assign_table { st with
        log := st.log ++ ["Status of " ++ site ++ ": " ++ response.Status] } _ _ t ht]
      simp only
      split
      · rfl
      · split
        · split
          · rfl
          · exact (checkCerts_sent _ _ _ _ _ _).1
        · rfl

/-- A probe touches no other key. -/
theorem probe_lookup_ne (cfg : Config) (w : World) (st : State) (site k : String)
    (hk : k ≠ site) :
    (probe cfg w st site).state.SiteList.lookup k = st.SiteList.lookup k := by
  unfold probe
  by_cases hm : st.SiteList = .nil
  · split
    · rw [assign_nil st _ _ hm]
    · rename_i response _
      rw [assign_nil { st with
        log := st.log ++ ["Status of " ++ site ++ ": " ++ response.Status] } _ _ hm]
  · obtain ⟨t, ht⟩ := exists_table _ hm
    have e : st.SiteList.lookup k = t.lookup k := by rw [ht]; rfl
    rw [e]
    split
    · rw [assign_table st _ _ t ht]
      exact AList.lookup_insert_ne hk
    · rename_i response _
      rw [assign_table { st with
        log := st.log ++ ["Status of " ++ site ++ ": " ++ response.Status] } _ _ t ht]
      simp only
      split
      · exact AList.lookup_insert_ne hk
      · split
        · split
          · exact AList.lookup_insert_ne hk
          · rw [checkCerts_lookup_ne _ _ _ _ _ _ _ hk]
            exact AList.lookup_insert_ne hk
        · exact AList.lookup_insert_ne hk

/-- A probe on a map that is not nil leaves a map that is not nil. -/
theorem probe_ne_nil (cfg : Config) (w : World) (st : State) (site : String)
    (hnn : st.SiteList ≠ .nil) : (probe cfg w st site).state.SiteList ≠ .nil := by
  obtain ⟨t, ht⟩ := exists_table _ hnn
  unfold probe
  split
  · rw [assign_table st _ _ t ht]
    simp
  · rename_i response _
    rw [assign_table { st with
      log := st.log ++ ["Status of " ++ site ++ ": " ++ response.Status] } _ _ t ht]
    simp only
    split
    · simp
    · split
      · split
        · simp
        · exact (checkCerts_panic _ _ _ _ _ _ (by simp)).2
      · simp

/-- The probing loop sends nothing. -/
theorem probeAll_sent (cfg : Config) (w : World) (keys : List String) (st : State) :
    (probeAll cfg w keys st).state.sent = st.sent := by
  induction keys generalizing st with
  | nil => rfl
  | cons k rest ih =>
    simp only [probeAll]
    have hp := probe_sent cfg w st k
    cases hr : probe cfg w st k with
    | mk st1 p =>
      rw [hr] at hp
      cases p with
      | none => simp only; rw [ih]; exact hp
      | some v => exact hp

/-- The probing loop leaves the keys it does not visit. -/
theorem probeAll_lookup_of_not_mem (cfg : Config) (w : World) (keys : List String) (st : State)
    (site : String) (h : site ∉ keys) :
    (probeAll cfg w keys st).state.SiteList.lookup site = st.SiteList.lookup site := by
  induction keys generalizing st with
  | nil => rfl
  | cons k rest ih =>
    simp only [probeAll]
    have hk : site ≠ k := fun e => h (e ▸ List.mem_cons_self _ _)
    have hp := probe_lookup_ne cfg w st k site hk
    cases hr : probe cfg w st k with
    | mk st1 p =>
      rw [hr] at hp
      cases p with
      | none =>
        simp only
        rw [ih _ (fun hm => h (List.mem_cons_of_mem _ hm))]
        exact hp
      | some v => exact hp

/-- A visited site whose GET fails has status 1 when the loop, started on a map that is not
nil, ends without panic. -/
theorem probeAll_lookup_error (cfg : Config) (w : World) (keys : List String) (st : State)
    (site err : String) (hnn : st.SiteList ≠ .nil) (hget : w.get site = .error err)
    (hmem : site ∈ keys) (hnd : keys.Nodup) (hp : (probeAll cfg w keys st).panic = none) :
    (probeAll cfg w keys st).state.SiteList.lookup site = some 1 := by
  induction keys generalizing st with
  | nil => simp at hmem
  | cons k rest ih =>
    simp only [probeAll] at hp ⊢
    rw [List.nodup_cons] at hnd
    have hnn1 := probe_ne_nil cfg w st k hnn
    cases hr : probe cfg w st k with
    | mk st1 p =>
      rw [hr] at hp hnn1
      cases p with
      | some v => simp at hp
      | none =>
        simp only at hp ⊢
        by_cases hk : site = k
        · subst hk
          rw [probeAll_lookup_of_not_mem _ _ _ _ _ hnd.1]
          obtain ⟨t, ht⟩ := exists_table _ hnn
          rw [probe_error cfg w st site err t ht hget] at hr
          cases hr
          exact AList.lookup_insert _
        · have hm : site ∈ rest := by
            rcases List.mem_cons.1 hmem with h | h
            · exact absurd h hk
            · exact h
          exact ih st1 hnn1 hm hnd.2 hp

/-- The probing loop panics when it holds a site whose probe always panics. -/
theorem probeAll_panics (cfg : Config) (w : World) (keys : List String) (st : State)
    (site : String) (hmem : site ∈ keys)
    (hpanic : ∀ s : State, (probe cfg w s site).panic ≠ none) :
    (probeAll cfg w keys st).panic ≠ none := by
  induction keys generalizing st with
  | nil => simp at hmem
  | cons k rest ih =>
    simp only [probeAll]
    cases hr : probe cfg w st k with
    | mk st1 p =>
      cases p with
      | some v => simp
      | none =>
        simp only
        rcases List.mem_cons.1 hmem with h | h
        · subst h
          have := hpanic st
          rw [hr] at this
          exact absurd rfl this
        · exact ih st1 h

/-- In a list without duplicate keys the entries of a key are the one entry present. -/
theorem filter_key_of_mem (l : List (Sigma fun _ : String => Int)) (hnd : l.NodupKeys)
    (a : String) (b : Int) (hmem : (⟨a, b⟩ : Sigma fun _ : String => Int) ∈ l) :
    l.filter (fun e => e.1 = a) = [⟨a, b⟩] := by
  induction l with
  | nil => simp at hmem
  | cons e l ih =>
    rw [List.nodupKeys_cons] at hnd
    rcases List.mem_cons.1 hmem with h | h
    · subst h
      have hnone : l.filter (fun e => e.1 = a) = [] := by
        rw [List.filter_eq_nil_iff]
        intro x hx hxa
        simp only [decide_eq_true_eq] at hxa
        have hx1 := List.mem_keys_of_mem hx
        rw [hxa] at hx1
        exact hnd.1 hx1
      simp [List.filter_cons, hnone]
    · have hne : e.1 ≠ a := by
        intro hea
        exact hnd.1 (hea ▸ List.mem_keys_of_mem h)
      simp [List.filter_cons, hne, ih hnd.2 h]

/-- The three ways a cycle can go: the save panics, a probe panics, or the notifier runs. -/
theorem monitorCycle_cases (cfg : Config) (w : World) (st : State) :
    (∃ p, w.writeFile st.SiteList = some p ∧ monitorCycle cfg w st = ⟨st, some p⟩) ∨
    (∃ p, (probeAll cfg w st.SiteList.keys { st with configFile := some st.SiteList }).panic
          = some p ∧
        monitorCycle cfg w st =
          probeAll cfg w st.SiteList.keys { st with configFile := some st.SiteList }) ∨
    ((probeAll cfg w st.SiteList.keys { st with configFile := some st.SiteList }).panic
          = none ∧
        monitorCycle cfg w st =
          ⟨send_notifications cfg
            (probeAll cfg w st.SiteList.keys { st with configFile := some st.SiteList }).state,
           none⟩) := by
  unfold monitorCycle save_list
  cases hw : w.writeFile st.SiteList with
  | some p => exact Or.inl ⟨p, rfl, rfl⟩
  | none =>
    right
    simp only
    cases hr : probeAll cfg w st.SiteList.keys { st with configFile := some st.SiteList } with
    | mk st2 p =>
      cases p with
      | some v => exact Or.inl ⟨v, rfl, rfl⟩
      | none => exact Or.inr ⟨rfl, rfl⟩

/-- On a map that is not nil a probe panics exactly when `probeCompletes` is false. -/
theorem probe_panic_iff (cfg : Config) (w : World) (st : State) (site : String)
    (hnn : st.SiteList ≠ .nil) :
    (probe cfg w st site).panic = none ↔ probeCompletes w site = true := by
  obtain ⟨t, ht⟩ := exists_table _ hnn
  unfold probe probeCompletes
  cases w.get site with
  | error err =>
    simp only
    rw [assign_table st _ _ t ht]
    simp
  | ok response =>
    simp only
    rw [assign_table { st with
      log := st.log ++ ["Status of " ++ site ++ ": " ++ response.Status] } _ _ t ht]
    simp only
    cases w.parse site with
    | error err => simp
    | ok siteUrl =>
      simp only
      by_cases hs : siteUrl.Scheme = "https"
      · rw [if_pos hs, if_pos hs]
        cases w.dial (siteUrl.Host ++ ":443") with
        | error err => simp
        | ok conn =>
          simp only [iff_true]
          exact (checkCerts_panic _ _ _ _ _ _ (by simp)).1
      · rw [if_neg hs, if_neg hs]
        simp

/-- Started on a map that is not nil, the probing loop ends without panic exactly when every
probe reaches its end. -/
theorem probeAll_panic_iff (cfg : Config) (w : World) (keys : List String) (st : State)
    (hnn : st.SiteList ≠ .nil) :
    (probeAll cfg w keys st).panic = none ↔ keys.all (probeCompletes w) = true := by
  induction keys generalizing st with
  | nil => simp [probeAll]
  | cons k rest ih =>
    simp only [probeAll, List.all_cons, Bool.and_eq_true]
    have hp := probe_panic_iff cfg w st k hnn
    have hnn1 := probe_ne_nil cfg w st k hnn
    cases hr : probe cfg w st k with
    | mk st1 p =>
      rw [hr] at hp hnn1
      cases p with
      | none =>
        simp only at hp ⊢
        rw [ih st1 hnn1]
        exact ⟨fun h => ⟨hp.1 trivial, h⟩, fun h => h.2⟩
      | some v =>
        simp only at hp ⊢
        constructor
        · intro h
          cases h
        · intro h
          have := hp.2 h.1
          cases this

/-- A cycle reaches the notifier exactly when `cycleCompletes` is true. -/
theorem monitorCycle_panic_iff (cfg : Config) (w : World) (st : State) :
    (monitorCycle cfg w st).panic = none ↔ cycleCompletes w st = true := by
  have hall : (probeAll cfg w st.SiteList.keys { st with configFile := some st.SiteList }).panic
      = none ↔ st.SiteList.keys.all (probeCompletes w) = true := by
    by_cases hm : st.SiteList = .nil
    · rw [hm]
      simp [SiteMap.keys, probeAll]
    · exact probeAll_panic_iff cfg w _ _ hm
  unfold cycleCompletes
  rw [Bool.and_eq_true, ← hall]
  rcases monitorCycle_cases cfg w st with ⟨p, hw, h⟩ | ⟨p, hp, h⟩ | ⟨hp, h⟩
  · rw [h, hw]
    simp
  · rw [h, hp]
    simp
  · rw [h]
    simp only [true_iff]
    refine ⟨?_, hp⟩
    cases hw : w.writeFile st.SiteList with
    | none => rfl
    | some v =>
      exfalso
      have h2 : monitorCycle cfg w st = ⟨st, some v⟩ := by
        unfold monitorCycle save_list
        rw [hw]
      have h3 := congrArg Result.panic h
      rw [h2] at h3
      cases h3

/-- A cycle that panics sends nothing. -/
theorem monitorCycle_sent_of_panic (cfg : Config) (w : World) (st : State)
    (hp : (monitorCycle cfg w st).panic ≠ none) :
    (monitorCycle cfg w st).state.sent = st.sent := by
  rcases monitorCycle_cases cfg w st with ⟨p, -, h⟩ | ⟨p, -, h⟩ | ⟨-, h⟩
  · rw [h]
  · rw [h, probeAll_sent]
  · rw [h] at hp
    exact absurd rfl hp

/-- Claim C4 (the code departs from it when another probe of the cycle panics). When the GET
of `site` fails at the transport layer, its probe does not panic, stores status 1 and dials
nothing (no certificate check), whatever the URL is.  When the file is written and no probe
of the cycle panics, the cycle reaches the notifier, the status of `site` is 1 at the end,
the messages sent are those of the unhealthy entries, and the entries of key `site` yield
exactly one message, with the text `"CRIT - " ++ site ++ " ; status: 1"`.  In every other
cycle the loop panics before the notifier and no message is sent, for `site` or any other
site. -/
theorem transport_error_spec (cfg : Config) (w : World) (st : State) (site err : String)
    (hget : w.get site = .error err) (hmem : site ∈ st.SiteList) :
    (∀ s : State, s.SiteList ≠ .nil →
      (probe cfg w s site).panic = none ∧
      (probe cfg w s site).state.SiteList.lookup site = some 1 ∧
      (probe cfg w s site).state.dialed = s.dialed) ∧
    (cycleCompletes w st = true →
      (monitorCycle cfg w st).panic = none ∧
      (monitorCycle cfg w st).state.SiteList.lookup site = some 1 ∧
      (monitorCycle cfg w st).state.sent = st.sent ++
        ((monitorCycle cfg w st).state.SiteList.entries.filter (fun e => e.2 ≠ 200)).map
          (fun e => ⟨cfg.chatID, alarm e.1 e.2⟩) ∧
      (((monitorCycle cfg w st).state.SiteList.entries.filter (fun e => e.2 ≠ 200)).filter
          (fun e => e.1 = site)).map (fun e => (⟨cfg.chatID, alarm e.1 e.2⟩ : MessageConfig)) =
        [⟨cfg.chatID, "CRIT - " ++ site ++ " ; status: 1"⟩]) ∧
    (cycleCompletes w st = false →
      (monitorCycle cfg w st).panic ≠ none ∧
      (monitorCycle cfg w st).state.sent = st.sent) := by
  have hnn : st.SiteList ≠ .nil := ne_nil_of_mem _ _ hmem
  refine ⟨?_, ?_, ?_⟩
  · intro s hs
    obtain ⟨t, ht⟩ := exists_table _ hs
    rw [probe_error cfg w s site err t ht hget]
    exact ⟨rfl, AList.lookup_insert _, rfl⟩
  · intro hok
    have hrun := (monitorCycle_panic_iff cfg w st).2 hok
    refine ⟨hrun, ?_⟩
    rcases monitorCycle_cases cfg w st with ⟨p, -, h⟩ | ⟨p, hp, h⟩ | ⟨hp, h⟩
    · rw [h] at hrun
      cases hrun
    · rw [h, hp] at hrun
      cases hrun
    · have hl : (probeAll cfg w st.SiteList.keys
          { st with configFile := some st.SiteList }).state.SiteList.lookup site = some 1 :=
        probeAll_lookup_error cfg w _ _ site err hnn hget hmem
          (by
            obtain ⟨t, ht⟩ := exists_table _ hnn
            rw [ht]
            exact AList.keys_nodup t) hp
      have hs := probeAll_sent cfg w st.SiteList.keys { st with configFile := some st.SiteList }
      obtain ⟨n1, n2⟩ := foldl_notifyEntry cfg (probeAll cfg w st.SiteList.keys
          { st with configFile := some st.SiteList }).state.SiteList.entries
        (probeAll cfg w st.SiteList.keys { st with configFile := some st.SiteList }).state
      change (send_notifications cfg _).SiteList = _ at n1
      change (send_notifications cfg _).sent = _ at n2
      rw [h]
      simp only
      rw [n1]
      refine ⟨hl, ?_, ?_⟩
      · rw [n2, hs]
      · generalize (probeAll cfg w st.SiteList.keys
          { st with configFile := some st.SiteList }).state.SiteList = m at hl
        cases m with
        | nil => cases hl
        | table t2 =>
          have hmem1 : (⟨site, 1⟩ : Sigma fun _ : String => Int) ∈ t2.entries :=
            AList.mem_lookup_iff.1 hl
          simp only [SiteMap.entries]
          rw [List.filter_filter]
          have hswap : ∀ l : List (Sigma fun _ : String => Int),
              l.filter (fun e => (decide (e.1 = site) && decide (e.2 ≠ 200))) =
                (l.filter (fun e => e.1 = site)).filter (fun e => e.2 ≠ 200) := by
            intro l
            rw [List.filter_filter]
            congr 1
            funext e
            exact Bool.and_comm _ _
          rw [hswap, filter_key_of_mem _ t2.nodupKeys site 1 hmem1]
          have h1 : (" ; status: " ++ toString (1 : Int) : String) = " ; status: 1" := by
            decide
          simp only [List.filter_cons, List.filter_nil, List.map_cons, List.map_nil, alarm,
            String.append_assoc]
          have h2 : (decide (¬ (1 : Int) = 200)) = true := by decide
          rw [if_pos h2]
          simp only [List.map_cons, List.map_nil, List.cons.injEq, MessageConfig.mk.injEq,
            true_and, and_true]
          exact congrArg (fun t => "CRIT - " ++ (site ++ t)) h1
  · intro hno
    have hp : (monitorCycle cfg w st).panic ≠ none := by
      intro hc
      have := (monitorCycle_panic_iff cfg w st).1 hc
      rw [hno] at this
      cases this
    exact ⟨hp, monitorCycle_sent_of_panic cfg w st hp⟩

/-- Witness for C4. In `portWorld` the cycle over `downFirst` stores 1 for
`http://down.example`, whose GET fails, then panics on the failed dial of the next site:
nothing is sent.  In `deadWorld` the cycle over `downState` runs to its end and sends the
single message `CRIT - http://down.example ; status: 1`. -/
theorem transport_error_spec_witness :
    (portWorld.get "http://down.example" = .error "dial tcp: connection refused" ∧
      "http://down.example" ∈ downFirst.SiteList ∧
      cycleCompletes portWorld downFirst = false ∧
      (monitorCycle cfg10 portWorld downFirst).panic = some nilDereference ∧
      (monitorCycle cfg10 portWorld downFirst).state.SiteList.lookup "http://down.example" =
        some 1 ∧
      (monitorCycle cfg10 portWorld downFirst).state.dialed = ["example.com:8443:443"] ∧
      (monitorCycle cfg10 portWorld downFirst).state.sent = []) ∧
    (deadWorld.get "http://down.example" = .error "dial tcp: connection refused" ∧
      "http://down.example" ∈ downState.SiteList ∧
      cycleCompletes deadWorld downState = true ∧
      (monitorCycle cfg10 deadWorld downState).panic = none ∧
      (monitorCycle cfg10 deadWorld downState).state.sent =
        [⟨79039545, "CRIT - http://down.example ; status: 1"⟩] ∧
      (monitorCycle cfg10 deadWorld downState).state.SiteList.lookup "http://down.example" =
        some 1) :=
  have hbad := (transport_error_spec cfg10 portWorld downFirst "http://down.example"
    "dial tcp: connection refused" rfl (by decide)).2.2 (by decide)
  have h := (transport_error_spec cfg10 deadWorld downState "http://down.example"
    "dial tcp: connection refused" rfl (by decide)).2.1 (by decide)
  ⟨⟨rfl, by decide, by decide, by decide, by decide, by decide, hbad.2⟩,
    ⟨rfl, by decide, by decide, h.1, by decide, h.2.1⟩⟩

/-- Claim C2 (the code departs from it). When the GET of an https site succeeds and the TLS
dial fails, the probe logs the dial error, keeps the HTTP status code in the map, and then
panics on the nil connection; a monitor cycle over a map that holds such a site panics, and
the notifier is not reached (no message is sent). -/
theorem dial_failure_panics (cfg : Config) (w : World) (st : State) (site : String)
    (response : Response) (siteUrl : URL) (err : String)
    (hget : w.get site = .ok response) (hparse : w.parse site = .ok siteUrl)
    (hs : siteUrl.Scheme = "https") (hdial : w.dial (siteUrl.Host ++ ":443") = .error err)
    (hmem : site ∈ st.SiteList) :
    (∀ s : State, s.SiteList ≠ .nil →
      (probe cfg w s site).panic = some nilDereference ∧
      (probe cfg w s site).state.SiteList.lookup site = some response.StatusCode ∧
      (probe cfg w s site).state.log = s.log ++
        ["Status of " ++ site ++ ": " ++ response.Status,
         "Error in SSL dial to " ++ siteUrl.Host ++ ": " ++ err]) ∧
    (monitorCycle cfg w st).panic ≠ none ∧
    (monitorCycle cfg w st).state.sent = st.sent := by
  have hprobe : ∀ (s : State) (t : AList (fun _ : String => Int)), s.SiteList = .table t →
      probe cfg w s site =
      ⟨{ s with
         SiteList := .table (t.insert site response.StatusCode),
         dialed := s.dialed ++ [siteUrl.Host ++ ":443"],
         log := s.log ++ ["Status of " ++ site ++ ": " ++ response.Status] ++
           ["Error in SSL dial to " ++ siteUrl.Host ++ ": " ++ err] },
        some nilDereference⟩ := by
    intro s t ht
    unfold probe
    rw [hget]
    simp only
    rw [assign_table { s with
      log := s.log ++ ["Status of " ++ site ++ ": " ++ response.Status] } _ _ t ht]
    simp only
    rw [hparse]
    simp only
    rw [if_pos hs, hdial]
  have hany : ∀ s : State, (probe cfg w s site).panic ≠ none := by
    intro s
    by_cases hm : s.SiteList = .nil
    · unfold probe
      rw [hget]
      simp only
      rw [assign_nil { s with
        log := s.log ++ ["Status of " ++ site ++ ": " ++ response.Status] } _ _ hm]
      simp
    · obtain ⟨t, ht⟩ := exists_table _ hm
      rw [hprobe s t ht]
      simp
  have hp : (monitorCycle cfg w st).panic ≠ none := by
    rcases monitorCycle_cases cfg w st with ⟨p, -, h⟩ | ⟨p, hp, h⟩ | ⟨hp, -⟩
    · rw [h]
      simp
    · rw [h, hp]
      simp
    · exact absurd hp (probeAll_panics cfg w _ _ site hmem hany)
  refine ⟨?_, hp, monitorCycle_sent_of_panic cfg w st hp⟩
  intro s hsn
  obtain ⟨t, ht⟩ := exists_table _ hsn
  rw [hprobe s t ht]
  exact ⟨rfl, AList.lookup_insert _, by simp⟩

/-- Witness for C2: the cycle over `twoSites` in `portWorld` panics with a nil dereference after
storing 200 for `portSite`; the other site is never probed and nothing is sent. -/
theorem dial_failure_panics_witness :
    portWorld.get portSite = .ok ⟨"200 OK", 200⟩ ∧
    portWorld.parse portSite = .ok ⟨"https", "example.com:8443"⟩ ∧
    portWorld.dial ("example.com:8443" ++ ":443") =
      .error "dial tcp: address example.com:8443:443: too many colons in address" ∧
    portSite ∈ twoSites.SiteList ∧
    (monitorCycle cfg10 portWorld twoSites).panic = some nilDereference ∧
    (monitorCycle cfg10 portWorld twoSites).state.SiteList.lookup portSite = some 200 ∧
    (monitorCycle cfg10 portWorld twoSites).state.SiteList.lookup "http://down.example" =
      some 0 ∧
    (monitorCycle cfg10 portWorld twoSites).state.sent = [] :=
  have h := dial_failure_panics cfg10 portWorld twoSites portSite ⟨"200 OK", 200⟩
    ⟨"https", "example.com:8443"⟩
    "dial tcp: address example.com:8443:443: too many colons in address"
    rfl rfl rfl rfl (by decide)
  ⟨rfl, rfl, rfl, by decide, by decide, by decide, by decide, h.2.2⟩

/-! ## Rounding to `float64` -/

/-- With enough fuel `log2Fuel` brackets its argument between two powers of two. -/
theorem log2Fuel_spec (fuel n : Nat) (hn : n ≠ 0) (hf : n ≤ fuel) :
    2 ^ log2Fuel fuel n ≤ n ∧ n < 2 ^ (log2Fuel fuel n + 1) := by
  induction fuel generalizing n with
  | zero => omega
  | succ fuel ih =>
    unfold log2Fuel
    by_cases h2 : n < 2
    · rw [if_pos h2]
      have : n = 1 := by omega
      subst this
      simp
    · rw [if_neg h2]
      have hn2 : n / 2 ≠ 0 := by omega
      have hf2 : n / 2 ≤ fuel := by omega
      obtain ⟨h1, h3⟩ := ih (n / 2) hn2 hf2
      constructor
      · rw [pow_succ]
        omega
      · rw [pow_succ]
        omega

/-- The bracket `2 ^ ilog2 n ≤ n < 2 ^ (ilog2 n + 1)`. -/
theorem ilog2_spec (n : Nat) (hn : n ≠ 0) : 2 ^ ilog2 n ≤ n ∧ n < 2 ^ (ilog2 n + 1) :=
  log2Fuel_spec n n hn le_rfl

/-- A power of two with an integer exponent as a quotient of two natural powers. -/
theorem two_zpow_toNat_sub (e : Int) :
    ((2 : ℚ) ^ e.toNat) / (2 : ℚ) ^ (-e).toNat = (2 : ℚ) ^ e := by
  rcases le_total 0 e with h | h
  · have h1 : (-e).toNat = 0 := Int.toNat_eq_zero.2 (by omega)
    rw [h1, pow_zero, div_one, ← zpow_natCast, Int.toNat_of_nonneg h]
  · have h1 : e.toNat = 0 := Int.toNat_eq_zero.2 h
    have h2 : ((-e).toNat : Int) = -e := Int.toNat_of_nonneg (by omega)
    rw [h1, pow_zero, one_div, ← zpow_natCast, h2, zpow_neg, inv_inv]

/-- The power of two of exponent `floorLog2 a d` is at most `a / d`. -/
theorem floorLog2_le (a d : Nat) (ha : 0 < a) (hd : 0 < d) :
    (2 : ℚ) ^ floorLog2 a d ≤ (a : ℚ) / d := by
  have hdq : (0 : ℚ) < d := by exact_mod_cast hd
  unfold floorLog2
  simp only
  split
  · rename_i h
    rw [← two_zpow_toNat_sub, div_le_div_iff₀ (by positivity) hdq]
    have : ((d * 2 ^ ((ilog2 a : Int) - ilog2 d).toNat : Nat) : ℚ) ≤
        ((a * 2 ^ (-((ilog2 a : Int) - ilog2 d)).toNat : Nat) : ℚ) := by exact_mod_cast h
    push_cast at this
    linarith
  · have h1 := (ilog2_spec a (by omega)).1
    have h2 := (ilog2_spec d (by omega)).2
    have h1q : (2 : ℚ) ^ ilog2 a ≤ a := by exact_mod_cast h1
    have h2q : (d : ℚ) < 2 ^ (ilog2 d + 1) := by exact_mod_cast h2
    have e : (2 : ℚ) ^ ((ilog2 a : Int) - ilog2 d - 1) =
        (2 : ℚ) ^ ilog2 a / 2 ^ (ilog2 d + 1) := by
      rw [show ((ilog2 a : Int) - ilog2 d - 1) = (ilog2 a : Int) - ((ilog2 d + 1 : Nat) : Int) by
        push_cast; ring]
      rw [zpow_sub₀ (by norm_num), zpow_natCast, zpow_natCast]
    rw [e, div_le_div_iff₀ (by positivity) hdq]
    calc (2 : ℚ) ^ ilog2 a * d ≤ a * d := by
          apply mul_le_mul_of_nonneg_right h1q hdq.le
      _ ≤ a * 2 ^ (ilog2 d + 1) := by
          apply mul_le_mul_of_nonneg_left h2q.le
          positivity

/-- Rounding to nearest never passes an integer above. -/
theorem roundHalfEven_le (a d K : Nat) (hd : 0 < d) (h : a ≤ K * d) : roundHalfEven a d ≤ K := by
  unfold roundHalfEven
  simp only
  have hdiv : a / d ≤ K := Nat.div_le_of_le_mul (by rw [Nat.mul_comm]; exact h)
  have hmod := Nat.div_add_mod a d
  have hlt := Nat.mod_lt a hd
  have hstrict : 0 < a % d → a / d < K := by
    intro hpos
    by_contra hc
    have hK : a / d = K := by omega
    rw [hK] at hmod
    have : d * K = K * d := Nat.mul_comm _ _
    omega
  split
  · exact hdiv
  · split
    · have : 0 < a % d := by omega
      have := hstrict this
      omega
    · split
      · exact hdiv
      · have : 0 < a % d := by omega
        have := hstrict this
        omega

/-- Rounding to nearest never passes an integer below. -/
theorem le_roundHalfEven (a d K : Nat) (hd : 0 < d) (h : K * d ≤ a) : K ≤ roundHalfEven a d := by
  unfold roundHalfEven
  simp only
  have hdiv : K ≤ a / d := (Nat.le_div_iff_mul_le hd).2 h
  split
  · exact hdiv
  · split
    · omega
    · split
      · exact hdiv
      · omega

/-- The signed significand stays below an integer bound of the scaled value. -/
theorem signed_round_le (n : Int) (d p : Nat) (K : Int) (hd : 0 < d)
    (h : n * 2 ^ p ≤ K * d) :
    n.sign * (roundHalfEven (n.natAbs * 2 ^ p) d : Int) ≤ K := by
  have hdz : (0 : Int) < d := by exact_mod_cast hd
  have hpz : (0 : Int) < 2 ^ p := by positivity
  rcases lt_trichotomy n 0 with hn | hn | hn
  · rw [Int.sign_eq_neg_one_of_neg hn]
    rcases le_or_lt 0 K with hK | hK
    · have : (0 : Int) ≤ (roundHalfEven (n.natAbs * 2 ^ p) d : Int) := Int.ofNat_nonneg _
      omega
    · have hle : (-K).toNat * d ≤ n.natAbs * 2 ^ p := by
        have h1 : ((-K).toNat : Int) = -K := Int.toNat_of_nonneg (by omega)
        have h2 : (n.natAbs : Int) = -n := by omega
        have : (((-K).toNat * d : Nat) : Int) ≤ ((n.natAbs * 2 ^ p : Nat) : Int) := by
          push_cast
          rw [h1, abs_of_neg hn]
          linarith
        exact_mod_cast this
      have := le_roundHalfEven _ d _ hd hle
      have h1 : ((-K).toNat : Int) = -K := Int.toNat_of_nonneg (by omega)
      have : ((-K).toNat : Int) ≤ (roundHalfEven (n.natAbs * 2 ^ p) d : Int) := by
        exact_mod_cast this
      omega
  · subst hn
    simp only [Int.sign_zero, zero_mul]
    by_contra hc
    have : K * d < 0 := mul_neg_of_neg_of_pos (by omega) hdz
    simp at h
    omega
  · rw [Int.sign_eq_one_of_pos hn, one_mul]
    have hK : 0 < K := by
      by_contra hc
      have h1 : K * d ≤ 0 := mul_nonpos_of_nonpos_of_nonneg (by omega) hdz.le
      have h2 : 0 < n * 2 ^ p := mul_pos hn hpz
      omega
    have hle : n.natAbs * 2 ^ p ≤ K.toNat * d := by
      have h1 : (K.toNat : Int) = K := Int.toNat_of_nonneg hK.le
      have h2 : (n.natAbs : Int) = n := by omega
      have : ((n.natAbs * 2 ^ p : Nat) : Int) ≤ ((K.toNat * d : Nat) : Int) := by
        push_cast
        rw [h1, abs_of_pos hn]
        exact h
      exact_mod_cast this
    have := roundHalfEven_le _ d _ hd hle
    have h1 : (K.toNat : Int) = K := Int.toNat_of_nonneg hK.le
    have : (roundHalfEven (n.natAbs * 2 ^ p) d : Int) ≤ (K.toNat : Int) := by
      exact_mod_cast this
    omega

/-- The exponent of the last bit is at most `-t` when the value is below `2 ^ (53 - t)`. -/
theorem roundRat_exponent (n : Int) (d t : Nat) (hn : n ≠ 0) (hd : 0 < d) (ht : t ≤ 1074)
    (hb : |(n : ℚ) / d| * 2 ^ t < 2 ^ 53) :
    max (floorLog2 n.natAbs d - 52) (-1074) ≤ -(t : Int) := by
  have ha : 0 < n.natAbs := Int.natAbs_pos.2 hn
  have hfl := floorLog2_le n.natAbs d ha hd
  have habs : |(n : ℚ) / d| = (n.natAbs : ℚ) / d := by
    rw [abs_div, Nat.cast_natAbs, Int.cast_abs]
    congr 1
    exact abs_of_nonneg (by positivity)
  rw [habs] at hb
  have h1 : (2 : ℚ) ^ (floorLog2 n.natAbs d + t) < (2 : ℚ) ^ (53 : Int) := by
    rw [zpow_add₀ (by norm_num), zpow_natCast]
    calc (2 : ℚ) ^ floorLog2 n.natAbs d * 2 ^ t ≤ (n.natAbs : ℚ) / d * 2 ^ t := by
          apply mul_le_mul_of_nonneg_right hfl
          positivity
      _ < 2 ^ 53 := hb
      _ = (2 : ℚ) ^ (53 : Int) := by norm_num
  have h2 := (zpow_lt_zpow_iff_right₀ (by norm_num : (1 : ℚ) < 2)).1 h1
  omega

/-- Rounding never passes a multiple of `2 ^ (-t)` above the value, the value being below `2 ^ (53 - t)`. -/
theorem roundRat_le (n : Int) (d : Nat) (k : Int) (t : Nat) (hd : 0 < d) (ht : t ≤ 1074)
    (hb : |(n : ℚ) / d| * 2 ^ t < 2 ^ 53) (h : (n : ℚ) / d ≤ (k : ℚ) / 2 ^ t) :
    (roundRat n d).toRat ≤ (k : ℚ) / 2 ^ t := by
  have hdq : (0 : ℚ) < d := by exact_mod_cast hd
  by_cases hn : n = 0
  · subst hn
    simp only [roundRat, if_true, Float64.toRat]
    simpa using h
  · have hs := roundRat_exponent n d t hn hd ht hb
    unfold roundRat
    rw [if_neg hn]
    simp only [Float64.toRat]
    generalize max (floorLog2 n.natAbs d - 52) (-1074) = s at hs
    obtain ⟨p, rfl⟩ : ∃ p : Nat, s = -(p : Int) := ⟨(-s).toNat, by omega⟩
    have htp : t ≤ p := by omega
    have e1 : (-(-(p : Int))).toNat = p := by simp
    have e2 : (-(p : Int)).toNat = 0 := by simp
    rw [e1, e2, pow_zero, mul_one]
    have hK : n * 2 ^ p ≤ (k * 2 ^ (p - t)) * d := by
      have h1 : (n : ℚ) * 2 ^ p ≤ (k * 2 ^ (p - t)) * d := by
        rw [div_le_div_iff₀ hdq (by positivity)] at h
        have h2 : (2 : ℚ) ^ p = 2 ^ (p - t) * 2 ^ t := by
          rw [← pow_add, Nat.sub_add_cancel htp]
        rw [h2]
        have h3 : (0 : ℚ) < 2 ^ (p - t) := by positivity
        nlinarith
      exact_mod_cast h1
    have key := signed_round_le n d p _ hd hK
    have keyq : ((n.sign * (roundHalfEven (n.natAbs * 2 ^ p) d : Int) : Int) : ℚ) ≤
        ((k * 2 ^ (p - t) : Int) : ℚ) := by exact_mod_cast key
    rw [zpow_neg, zpow_natCast]
    have h2 : (2 : ℚ) ^ p = 2 ^ (p - t) * 2 ^ t := by
      rw [← pow_add, Nat.sub_add_cancel htp]
    rw [← div_eq_mul_inv, div_le_div_iff₀ (by positivity) (by positivity), h2]
    push_cast at keyq ⊢
    have h3 : (0 : ℚ) < 2 ^ t := by positivity
    nlinarith

/-- The value of the opposite float. -/
theorem toRat_neg (x : Float64) : x.neg.toRat = -x.toRat := by
  simp [Float64.neg, Float64.toRat]

/-- Rounding is symmetric. -/
theorem roundRat_neg (n : Int) (d : Nat) : roundRat (-n) d = (roundRat n d).neg := by
  unfold roundRat
  by_cases hn : n = 0
  · subst hn
    simp [Float64.neg]
  · have hn2 : -n ≠ 0 := by omega
    rw [if_neg hn, if_neg hn2]
    simp only [Float64.neg, Int.natAbs_neg, Int.sign_neg, neg_mul]

/-- Rounding never passes a multiple of `2 ^ (-t)` below the value. -/
theorem le_roundRat (n : Int) (d : Nat) (k : Int) (t : Nat) (hd : 0 < d) (ht : t ≤ 1074)
    (hb : |(n : ℚ) / d| * 2 ^ t < 2 ^ 53) (h : (k : ℚ) / 2 ^ t ≤ (n : ℚ) / d) :
    (k : ℚ) / 2 ^ t ≤ (roundRat n d).toRat := by
  have hb2 : |((-n : Int) : ℚ) / d| * 2 ^ t < 2 ^ 53 := by
    rw [Int.cast_neg, neg_div, abs_neg]
    exact hb
  have h2 : ((-n : Int) : ℚ) / d ≤ ((-k : Int) : ℚ) / 2 ^ t := by
    rw [Int.cast_neg, Int.cast_neg, neg_div, neg_div]
    exact neg_le_neg h
  have key := roundRat_le (-n) d (-k) t hd ht hb2 h2
  rw [roundRat_neg, toRat_neg, Int.cast_neg, neg_div] at key
  exact neg_le_neg_iff.1 key

/-- The denominator of a float is positive. -/
theorem float_den_pos (x : Float64) : 0 < x.den := by
  unfold Float64.den
  positivity

/-- The value of a float is its numerator over its denominator. -/
theorem toRat_eq (x : Float64) : x.toRat = (x.num : ℚ) / x.den := by
  unfold Float64.toRat Float64.num Float64.den
  push_cast
  rw [mul_div_assoc, two_zpow_toNat_sub]

/-- The numerator is zero exactly when the value is. -/
theorem num_eq_zero_iff (x : Float64) : x.num = 0 ↔ x.toRat = 0 := by
  have hd : (0 : ℚ) < x.den := by exact_mod_cast float_den_pos x
  rw [toRat_eq, div_eq_zero_iff]
  constructor
  · intro h
    left
    exact_mod_cast h
  · rintro (h | h)
    · exact_mod_cast h
    · exact absurd h hd.ne'

/-- The rational rounded by `Float64.add` is the exact sum. -/
theorem float_add_value (x y : Float64) :
    ((x.num * y.den + y.num * x.den : Int) : ℚ) / ((x.den * y.den : Nat) : ℚ) =
      x.toRat + y.toRat := by
  have hx : (0 : ℚ) < x.den := by exact_mod_cast float_den_pos x
  have hy : (0 : ℚ) < y.den := by exact_mod_cast float_den_pos y
  rw [toRat_eq, toRat_eq]
  push_cast
  field_simp

/-- The rational rounded by `Float64.div` is the exact quotient. -/
theorem float_div_value (x y : Float64) (hy : y.toRat ≠ 0) :
    ((y.num.sign * (x.num * y.den) : Int) : ℚ) / ((x.den * y.num.natAbs : Nat) : ℚ) =
      x.toRat / y.toRat := by
  have hxd : (x.den : ℚ) ≠ 0 := by exact_mod_cast (float_den_pos x).ne'
  have hyd : (y.den : ℚ) ≠ 0 := by exact_mod_cast (float_den_pos y).ne'
  have hyn : y.num ≠ 0 := fun h => hy ((num_eq_zero_iff y).1 h)
  have hynq : (y.num : ℚ) ≠ 0 := by exact_mod_cast hyn
  rw [toRat_eq, toRat_eq]
  rcases lt_or_gt_of_ne hyn with hneg | hpos
  · have h1 : y.num.sign = -1 := Int.sign_eq_neg_one_of_neg hneg
    have h2 : ((y.num.natAbs : Nat) : ℚ) = -(y.num : ℚ) := by
      rw [Nat.cast_natAbs, Int.cast_abs, abs_of_neg (by exact_mod_cast hneg)]
    rw [h1]
    push_cast
    rw [h2]
    field_simp
  · have h1 : y.num.sign = 1 := Int.sign_eq_one_of_pos hpos
    have h2 : ((y.num.natAbs : Nat) : ℚ) = (y.num : ℚ) := by
      rw [Nat.cast_natAbs, Int.cast_abs, abs_of_pos (by exact_mod_cast hpos)]
    rw [h1]
    push_cast
    rw [h2]
    field_simp

/-- An upper marker for a float sum. -/
theorem float_add_le (x y : Float64) (k : Int) (t : Nat) (ht : t ≤ 1074)
    (hb : |x.toRat + y.toRat| * 2 ^ t < 2 ^ 53) (h : x.toRat + y.toRat ≤ (k : ℚ) / 2 ^ t) :
    (x.add y).toRat ≤ (k : ℚ) / 2 ^ t := by
  unfold Float64.add
  apply roundRat_le _ _ k t (Nat.mul_pos (float_den_pos x) (float_den_pos y)) ht
  · rw [float_add_value]; exact hb
  · rw [float_add_value]; exact h

/-- A lower marker for a float sum. -/
theorem le_float_add (x y : Float64) (k : Int) (t : Nat) (ht : t ≤ 1074)
    (hb : |x.toRat + y.toRat| * 2 ^ t < 2 ^ 53) (h : (k : ℚ) / 2 ^ t ≤ x.toRat + y.toRat) :
    (k : ℚ) / 2 ^ t ≤ (x.add y).toRat := by
  unfold Float64.add
  apply le_roundRat _ _ k t (Nat.mul_pos (float_den_pos x) (float_den_pos y)) ht
  · rw [float_add_value]; exact hb
  · rw [float_add_value]; exact h

/-- The denominator handed to `roundRat` by `Float64.div` is positive. -/
theorem float_div_den_pos (x y : Float64) (hy : y.toRat ≠ 0) : 0 < x.den * y.num.natAbs :=
  Nat.mul_pos (float_den_pos x) (Int.natAbs_pos.2 (fun h => hy ((num_eq_zero_iff y).1 h)))

/-- An upper marker for a float quotient. -/
theorem float_div_le (x y : Float64) (hy : y.toRat ≠ 0) (k : Int) (t : Nat) (ht : t ≤ 1074)
    (hb : |x.toRat / y.toRat| * 2 ^ t < 2 ^ 53) (h : x.toRat / y.toRat ≤ (k : ℚ) / 2 ^ t) :
    (x.div y).toRat ≤ (k : ℚ) / 2 ^ t := by
  unfold Float64.div
  apply roundRat_le _ _ k t (float_div_den_pos x y hy) ht
  · rw [float_div_value x y hy]; exact hb
  · rw [float_div_value x y hy]; exact h

/-- A lower marker for a float quotient. -/
theorem le_float_div (x y : Float64) (hy : y.toRat ≠ 0) (k : Int) (t : Nat) (ht : t ≤ 1074)
    (hb : |x.toRat / y.toRat| * 2 ^ t < 2 ^ 53) (h : (k : ℚ) / 2 ^ t ≤ x.toRat / y.toRat) :
    (k : ℚ) / 2 ^ t ≤ (x.div y).toRat := by
  unfold Float64.div
  apply le_roundRat _ _ k t (float_div_den_pos x y hy) ht
  · rw [float_div_value x y hy]; exact hb
  · rw [float_div_value x y hy]; exact h

/-- The conversion of an integer below `2 ^ 53` in magnitude is exact. -/
theorem float64_toRat (n : Int) (h : |(n : ℚ)| < 2 ^ 53) : (float64 n).toRat = n := by
  unfold float64
  have hb : |(n : ℚ) / (1 : Nat)| * 2 ^ 0 < 2 ^ 53 := by simpa using h
  have e : (n : ℚ) / (1 : Nat) = (n : ℚ) / 2 ^ 0 := by simp
  have h1 := roundRat_le n 1 n 0 Nat.one_pos (by omega) hb e.le
  have h2 := le_roundRat n 1 n 0 Nat.one_pos (by omega) hb e.ge
  have h3 := le_antisymm h1 h2
  simpa using h3

/-- A lower bound on the conversion to `int64`. -/
theorem le_int64 (x : Float64) (B : Int) (hB : 0 ≤ B) (h : (B : ℚ) ≤ x.toRat) : B ≤ int64 x := by
  have hd : (0 : ℚ) < x.den := by exact_mod_cast float_den_pos x
  have hdz : (0 : Int) < x.den := by exact_mod_cast float_den_pos x
  rw [toRat_eq, le_div_iff₀ hd] at h
  have h1 : B * x.den ≤ x.num := by exact_mod_cast h
  have hnum : 0 ≤ x.num := le_trans (mul_nonneg hB hdz.le) h1
  unfold int64
  rw [Int.tdiv_eq_ediv hnum hdz.le]
  exact (Int.le_ediv_iff_mul_le hdz).2 h1

/-- An upper bound on the conversion to `int64` of a float that is not negative. -/
theorem int64_lt (x : Float64) (B : Int) (h0 : 0 ≤ x.toRat) (h : x.toRat < B) : int64 x < B := by
  have hd : (0 : ℚ) < x.den := by exact_mod_cast float_den_pos x
  have hdz : (0 : Int) < x.den := by exact_mod_cast float_den_pos x
  rw [toRat_eq] at h0 h
  rw [div_lt_iff₀ hd] at h
  have h1 : x.num < B * x.den := by exact_mod_cast h
  have hnum : 0 ≤ x.num := by
    have := (div_nonneg_iff.1 h0)
    rcases this with ⟨h2, -⟩ | ⟨-, h3⟩
    · exact_mod_cast h2
    · exact absurd h3 (not_le.2 hd)
  unfold int64
  rw [Int.tdiv_eq_ediv hnum hdz.le]
  exact (Int.ediv_lt_iff_lt_mul hdz).2 h1

/-- The conversion to `int64` is symmetric. -/
theorem int64_neg (x : Float64) : int64 x.neg = -int64 x := by
  unfold int64 Float64.neg Float64.num Float64.den
  simp only [neg_mul, Int.neg_tdiv]

/-! ## `Duration.Hours` and the day count -/

/-- The method `Hours` on a duration that is not negative. -/
theorem Hours_of_nonneg (d : Int) (h0 : 0 ≤ d) :
    Hours d = (float64 (d / 3600000000000)).add
      ((float64 (d % 3600000000000)).div (float64 3600000000000)) := by
  unfold Hours Hour
  simp only
  rw [Int.tdiv_eq_ediv h0 (by norm_num), Int.tmod_eq_emod h0 (by norm_num)]
  rfl

/-- Bounds on `Hours d` for `0 ≤ d ≤ 2 ^ 63`. -/
theorem Hours_bounds (d : Int) (h0 : 0 ≤ d) (h1 : d ≤ 2 ^ 63) :
    0 ≤ (Hours d).toRat ∧ (Hours d).toRat ≤ 2562048 ∧
    (∀ A : Int, A * Hour ≤ d → (A : ℚ) ≤ (Hours d).toRat) ∧
    (∀ A : Int, d + 1000000 ≤ A * Hour →
      (Hours d).toRat ≤ ((A * 2 ^ 22 - 1 : Int) : ℚ) / 2 ^ 22) ∧
    (Hours d).toRat ≤ ((d / 3600000000000 + 1 : Int) : ℚ) := by
  rw [Hours_of_nonneg d h0]
  unfold Hour
  have hh0 : 0 ≤ d / 3600000000000 := by omega
  have hh1 : d / 3600000000000 ≤ 2562047 := by norm_num at h1; omega
  have hn0 : 0 ≤ d % 3600000000000 := by omega
  have hn1 : d % 3600000000000 < 3600000000000 := by omega
  generalize hhour : d / 3600000000000 = hour at *
  generalize hnsec : d % 3600000000000 = nsec at *
  have hhq0 : (0 : ℚ) ≤ hour := by exact_mod_cast hh0
  have hhq1 : (hour : ℚ) ≤ 2562047 := by exact_mod_cast hh1
  have hnq0 : (0 : ℚ) ≤ nsec := by exact_mod_cast hn0
  have hnq1 : (nsec : ℚ) < 3600000000000 := by exact_mod_cast hn1
  have eh : (float64 hour).toRat = hour := by
    apply float64_toRat
    rw [abs_of_nonneg hhq0]
    linarith
  have en : (float64 nsec).toRat = nsec := by
    apply float64_toRat
    rw [abs_of_nonneg hnq0]
    linarith
  have eH : (float64 3600000000000).toRat = 3600000000000 := by
    have := float64_toRat 3600000000000 (by norm_num)
    simpa using this
  have hH : (float64 3600000000000).toRat ≠ 0 := by rw [eH]; norm_num
  have hr0 : (0 : ℚ) ≤ (nsec : ℚ) / 3600000000000 := by positivity
  have hr1 : (nsec : ℚ) / 3600000000000 < 1 := by
    rw [div_lt_one (by norm_num)]
    exact hnq1
  have hrabs : |(nsec : ℚ) / 3600000000000| < 1 := by
    rw [abs_of_nonneg hr0]; exact hr1
  set F := (float64 nsec).div (float64 3600000000000) with hF
  have hF0 : 0 ≤ F.toRat := by
    have := le_float_div (float64 nsec) (float64 3600000000000) hH 0 0 (by omega)
      (by rw [en, eH]; norm_num; linarith) (by rw [en, eH]; simpa using hr0)
    simpa using this
  have hF1 : F.toRat ≤ 1 := by
    have := float_div_le (float64 nsec) (float64 3600000000000) hH 1 0 (by omega)
      (by rw [en, eH]; norm_num; linarith) (by rw [en, eH]; simpa using hr1.le)
    simpa using this
  have hF2 : nsec ≤ 3600000000000 - 1000000 → F.toRat ≤ 1 - 1 / 2 ^ 22 := by
    intro hle
    have hleq : (nsec : ℚ) ≤ 3600000000000 - 1000000 := by exact_mod_cast hle
    have := float_div_le (float64 nsec) (float64 3600000000000) hH (2 ^ 22 - 1) 22 (by omega)
      (by rw [en, eH]; norm_num; linarith)
      (by
        rw [en, eH, div_le_div_iff₀ (by norm_num) (by norm_num)]
        push_cast
        linarith)
    calc F.toRat ≤ ((2 ^ 22 - 1 : Int) : ℚ) / 2 ^ 22 := this
      _ = 1 - 1 / 2 ^ 22 := by norm_num
  have hS0 : 0 ≤ (float64 hour).toRat + F.toRat := by rw [eh]; linarith
  have hS1 : (float64 hour).toRat + F.toRat ≤ 2562048 := by rw [eh]; linarith
  have hSabs : |(float64 hour).toRat + F.toRat| ≤ 2562048 := by
    rw [abs_of_nonneg hS0]; exact hS1
  refine ⟨?_, ?_, ?_, ?_, ?_⟩
  · have := le_float_add (float64 hour) F 0 0 (by omega) (by norm_num; linarith) (by simpa using hS0)
    simpa using this
  · have := float_add_le (float64 hour) F 2562048 0 (by omega) (by norm_num; linarith)
      (by simpa using hS1)
    simpa using this
  · intro A hA
    have hAh : A ≤ hour := by omega
    have hAq : (A : ℚ) ≤ hour := by exact_mod_cast hAh
    have := le_float_add (float64 hour) F A 0 (by omega) (by norm_num; linarith)
      (by rw [eh]; simp; linarith)
    simpa using this
  · intro A hA
    apply float_add_le (float64 hour) F _ 22 (by omega)
    · norm_num
      linarith
    · rw [eh]
      have e : ((A * 2 ^ 22 - 1 : Int) : ℚ) / 2 ^ 22 = A - 1 / 2 ^ 22 := by
        push_cast
        ring
      rw [e]
      by_cases hcase : hour ≤ A - 2
      · have hq : (hour : ℚ) ≤ A - 2 := by exact_mod_cast hcase
        have : (1 : ℚ) / 2 ^ 22 ≤ 1 := by norm_num
        linarith
      · have hle : nsec ≤ 3600000000000 - 1000000 := by omega
        have hq : (hour : ℚ) ≤ A - 1 := by
          have : hour ≤ A - 1 := by omega
          exact_mod_cast this
        have := hF2 hle
        linarith
  · have := float_add_le (float64 hour) F (hour + 1) 0 (by omega) (by norm_num; linarith)
      (by rw [eh]; push_cast; simp; linarith)
    simpa using this

/-- The constant 24 is exact. -/
theorem float64_24 : (float64 24).toRat = 24 := by
  have := float64_toRat 24 (by norm_num)
  simpa using this

/-- At least `B` whole days give a day count of at least `B`. -/
theorem le_daysToExprire (d B : Int) (h0 : 0 ≤ d) (h1 : d ≤ 2 ^ 63) (hB : 0 ≤ B)
    (h : B * (24 * Hour) ≤ d) : B ≤ daysToExprire d := by
  obtain ⟨b0, b1, b2, -⟩ := Hours_bounds d h0 h1
  have hf := b2 (24 * B) (by linarith)
  push_cast at hf
  have h24 : (float64 24).toRat ≠ 0 := by rw [float64_24]; norm_num
  unfold daysToExprire
  apply le_int64 _ _ hB
  have hq : (B : ℚ) ≤ (Hours d).toRat / 24 := by
    rw [le_div_iff₀ (by norm_num)]
    linarith
  have hqabs : |(Hours d).toRat / 24| ≤ 2562048 := by
    rw [abs_of_nonneg (by positivity)]
    rw [div_le_iff₀ (by norm_num)]
    linarith
  have := le_float_div (Hours d) (float64 24) h24 B 0 (by omega)
    (by rw [float64_24]; norm_num; linarith) (by rw [float64_24]; simpa using hq)
  simpa using this

/-- A millisecond short of `B` whole days gives a day count below `B`. -/
theorem daysToExprire_lt (d B : Int) (h0 : 0 ≤ d) (h1 : d ≤ 2 ^ 63)
    (h : d + 1000000 ≤ B * (24 * Hour)) : daysToExprire d < B := by
  obtain ⟨b0, b1, -, b3, -⟩ := Hours_bounds d h0 h1
  have hf := b3 (24 * B) (by linarith)
  push_cast at hf
  have h24 : (float64 24).toRat ≠ 0 := by rw [float64_24]; norm_num
  have hq0 : 0 ≤ (Hours d).toRat / 24 := by positivity
  have hqabs : |(Hours d).toRat / 24| ≤ 2562048 := by
    rw [abs_of_nonneg hq0, div_le_iff₀ (by norm_num)]
    linarith
  have hq : (Hours d).toRat / 24 ≤ ((B * 2 ^ 27 - 1 : Int) : ℚ) / 2 ^ 27 := by
    rw [div_le_iff₀ (by norm_num)]
    norm_num at hf ⊢
    linarith
  have hup := float_div_le (Hours d) (float64 24) h24 (B * 2 ^ 27 - 1) 27 (by omega)
    (by rw [float64_24]; norm_num; linarith) (by rw [float64_24]; exact hq)
  have hlo := le_float_div (Hours d) (float64 24) h24 0 0 (by omega)
    (by rw [float64_24]; norm_num; linarith) (by rw [float64_24]; simpa using hq0)
  unfold daysToExprire
  apply int64_lt
  · simpa using hlo
  · calc ((Hours d).div (float64 24)).toRat ≤ ((B * 2 ^ 27 - 1 : Int) : ℚ) / 2 ^ 27 := hup
      _ < B := by
        push_cast
        rw [div_lt_iff₀ (by norm_num)]
        linarith

/-- The numerator of the opposite float. -/
theorem float_neg_num (x : Float64) : x.neg.num = -x.num := by
  simp [Float64.neg, Float64.num]

/-- The denominator of the opposite float. -/
theorem float_neg_den (x : Float64) : x.neg.den = x.den := rfl

/-- The conversion of integers is symmetric. -/
theorem float64_neg (n : Int) : float64 (-n) = (float64 n).neg := roundRat_neg n 1

/-- The float sum is symmetric. -/
theorem float_add_neg (x y : Float64) : x.neg.add y.neg = (x.add y).neg := by
  unfold Float64.add
  rw [float_neg_num, float_neg_num, float_neg_den, float_neg_den, ← roundRat_neg]
  congr 1
  ring

/-- The float quotient is symmetric in the dividend. -/
theorem float_neg_div (x y : Float64) : x.neg.div y = (x.div y).neg := by
  unfold Float64.div
  rw [float_neg_num, float_neg_den, ← roundRat_neg]
  congr 1
  ring

/-- The remainder of the truncated division is symmetric. -/
theorem int_neg_tmod (a b : Int) : (-a).tmod b = -a.tmod b := by
  rw [Int.tmod_def, Int.tmod_def, Int.neg_tdiv]
  ring

/-- The method `Hours` is symmetric. -/
theorem Hours_neg (d : Int) : Hours (-d) = (Hours d).neg := by
  unfold Hours
  simp only [Int.neg_tdiv, int_neg_tmod, float64_neg, float_neg_div, float_add_neg]

/-- The day count is symmetric. -/
theorem daysToExprire_neg (d : Int) : daysToExprire (-d) = -daysToExprire d := by
  unfold daysToExprire
  rw [Hours_neg, float_neg_div, int64_neg]

/-! ## Monotonicity of rounding -/

/-- The rational `a / d` is below the power of two of exponent `floorLog2 a d + 1`. -/
theorem floorLog2_lt (a d : Nat) (ha : 0 < a) (hd : 0 < d) :
    (a : ℚ) / d < (2 : ℚ) ^ (floorLog2 a d + 1) := by
  have hdq : (0 : ℚ) < d := by exact_mod_cast hd
  unfold floorLog2
  simp only
  split
  · have h1 := (ilog2_spec a (by omega)).2
    have h2 := (ilog2_spec d (by omega)).1
    have h1q : (a : ℚ) < 2 ^ (ilog2 a + 1) := by exact_mod_cast h1
    have h2q : (2 : ℚ) ^ ilog2 d ≤ d := by exact_mod_cast h2
    have e : (2 : ℚ) ^ ((ilog2 a : Int) - ilog2 d + 1) =
        (2 : ℚ) ^ (ilog2 a + 1) / 2 ^ ilog2 d := by
      rw [show ((ilog2 a : Int) - ilog2 d + 1) = ((ilog2 a + 1 : Nat) : Int) - (ilog2 d : Int) by
        push_cast; ring]
      rw [zpow_sub₀ (by norm_num), zpow_natCast, zpow_natCast]
    rw [e, div_lt_div_iff₀ hdq (by positivity)]
    calc (a : ℚ) * 2 ^ ilog2 d < 2 ^ (ilog2 a + 1) * 2 ^ ilog2 d := by
          apply mul_lt_mul_of_pos_right h1q
          positivity
      _ ≤ 2 ^ (ilog2 a + 1) * d := by
          apply mul_le_mul_of_nonneg_left h2q
          positivity
  · rename_i h
    rw [sub_add_cancel, ← two_zpow_toNat_sub, div_lt_div_iff₀ hdq (by positivity)]
    have h' := not_le.1 h
    have : ((a * 2 ^ (-((ilog2 a : Int) - ilog2 d)).toNat : Nat) : ℚ) <
        ((d * 2 ^ ((ilog2 a : Int) - ilog2 d).toNat : Nat) : ℚ) := by exact_mod_cast h'
    push_cast at this
    linarith

/-- The exponent grows with the value. -/
theorem floorLog2_mono (a1 d1 a2 d2 : Nat) (ha1 : 0 < a1) (hd1 : 0 < d1) (ha2 : 0 < a2)
    (hd2 : 0 < d2) (h : (a1 : ℚ) / d1 ≤ (a2 : ℚ) / d2) :
    floorLog2 a1 d1 ≤ floorLog2 a2 d2 := by
  have h1 := floorLog2_le a1 d1 ha1 hd1
  have h2 := floorLog2_lt a2 d2 ha2 hd2
  have h3 : (2 : ℚ) ^ floorLog2 a1 d1 < (2 : ℚ) ^ (floorLog2 a2 d2 + 1) :=
    lt_of_le_of_lt (le_trans h1 h) h2
  have := (zpow_lt_zpow_iff_right₀ (by norm_num : (1 : ℚ) < 2)).1 h3
  omega

/-- Rounding to the nearest integer grows with the value. -/
theorem roundHalfEven_mono (a1 d1 a2 d2 : Nat) (hd1 : 0 < d1) (hd2 : 0 < d2)
    (h : a1 * d2 ≤ a2 * d1) : roundHalfEven a1 d1 ≤ roundHalfEven a2 d2 := by
  have hq : a1 / d1 ≤ a2 / d2 := by
    rw [Nat.le_div_iff_mul_le hd2]
    have h1 : a1 / d1 * d1 ≤ a1 := Nat.div_mul_le_self a1 d1
    have h2 : a1 / d1 * d2 * d1 ≤ a2 * d1 := by
      calc a1 / d1 * d2 * d1 = a1 / d1 * d1 * d2 := by ring
        _ ≤ a1 * d2 := Nat.mul_le_mul_right d2 h1
        _ ≤ a2 * d1 := h
    exact Nat.le_of_mul_le_mul_right h2 hd1
  rcases Nat.lt_or_ge (a1 / d1) (a2 / d2) with hlt | hge
  · have hup : roundHalfEven a1 d1 ≤ a1 / d1 + 1 := by
      unfold roundHalfEven
      simp only
      split
      · omega
      · split
        · omega
        · split <;> omega
    have hlo : a2 / d2 ≤ roundHalfEven a2 d2 :=
      le_roundHalfEven a2 d2 (a2 / d2) hd2 (Nat.div_mul_le_self a2 d2)
    omega
  · have heq : a1 / d1 = a2 / d2 := by omega
    have e1 := Nat.div_add_mod a1 d1
    have e2 := Nat.div_add_mod a2 d2
    have hr : (a1 % d1) * d2 ≤ (a2 % d2) * d1 := by
      have e1' : a1 = d1 * (a2 / d2) + a1 % d1 := by rw [← heq]; exact e1.symm
      have e2' : a2 = d2 * (a2 / d2) + a2 % d2 := e2.symm
      generalize a2 / d2 = q at e1' e2'
      generalize a1 % d1 = r1 at e1' ⊢
      generalize a2 % d2 = r2 at e2' ⊢
      subst e1' e2'
      have : (d1 * q + r1) * d2 = d1 * d2 * q + r1 * d2 := by ring
      have : (d2 * q + r2) * d1 = d1 * d2 * q + r2 * d1 := by ring
      omega
    unfold roundHalfEven
    simp only
    rw [heq]
    generalize a2 / d2 = q at *
    generalize a1 % d1 = r1 at *
    generalize a2 % d2 = r2 at *
    by_cases c1 : 2 * r1 < d1
    · rw [if_pos c1]
      split
      · omega
      · split
        · omega
        · split <;> omega
    · rw [if_neg c1]
      have c2 : ¬ 2 * r2 < d2 := by
        intro hc
        have : 2 * r2 * d1 < d2 * d1 := Nat.mul_lt_mul_of_pos_right hc hd1
        have : d1 * d2 ≤ 2 * r1 * d2 := Nat.mul_le_mul_right d2 (by omega)
        have e3 : 2 * r1 * d2 = 2 * (r1 * d2) := by ring
        have e4 : 2 * r2 * d1 = 2 * (r2 * d1) := by ring
        have e5 : d1 * d2 = d2 * d1 := by ring
        omega
      rw [if_neg c2]
      by_cases c3 : d1 < 2 * r1
      · rw [if_pos c3]
        have c4 : d2 < 2 * r2 := by
          by_contra hc
          have : 2 * r2 * d1 ≤ d2 * d1 := Nat.mul_le_mul_right d1 (by omega)
          have : d1 * d2 < 2 * r1 * d2 := Nat.mul_lt_mul_of_pos_right c3 hd2
          have e3 : 2 * r1 * d2 = 2 * (r1 * d2) := by ring
          have e4 : 2 * r2 * d1 = 2 * (r2 * d1) := by ring
          have e5 : d1 * d2 = d2 * d1 := by ring
          omega
        rw [if_pos c4]
      · rw [if_neg c3]
        by_cases c5 : q % 2 = 0
        · rw [if_pos c5]
          split <;> omega
        · rw [if_neg c5]
          split <;> omega


/-- Rounding to `float64` grows with the value, for values from 0 to `2 ^ 53`. -/
theorem roundRat_mono (n1 n2 : Int) (d1 d2 : Nat) (hd1 : 0 < d1) (hd2 : 0 < d2)
    (h0 : 0 ≤ (n1 : ℚ) / d1) (hle : (n1 : ℚ) / d1 ≤ (n2 : ℚ) / d2)
    (hb : (n2 : ℚ) / d2 < 2 ^ 53) :
    (roundRat n1 d1).toRat ≤ (roundRat n2 d2).toRat := by
  have hd1q : (0 : ℚ) < d1 := by exact_mod_cast hd1
  have hd2q : (0 : ℚ) < d2 := by exact_mod_cast hd2
  have hn1 : 0 ≤ n1 := by
    have := (div_nonneg_iff.1 h0)
    rcases this with ⟨h, -⟩ | ⟨-, h⟩
    · exact_mod_cast h
    · exact absurd h (not_le.2 hd1q)
  have h02 : 0 ≤ (n2 : ℚ) / d2 := le_trans h0 hle
  have hb2 : |(n2 : ℚ) / d2| * 2 ^ 0 < 2 ^ 53 := by
    rw [abs_of_nonneg h02]
    simpa using hb
  rcases eq_or_lt_of_le hn1 with hz | hpos
  · subst hz
    have := le_roundRat n2 d2 0 0 hd2 (by omega) hb2 (by simpa using h02)
    simpa [roundRat, Float64.toRat] using this
  · have hn1q : (0 : ℚ) < n1 := by exact_mod_cast hpos
    have hx1 : 0 < (n1 : ℚ) / d1 := div_pos hn1q hd1q
    have hx2 : 0 < (n2 : ℚ) / d2 := lt_of_lt_of_le hx1 hle
    have hn2q : (0 : ℚ) < n2 := by
      rcases (div_pos_iff.1 hx2) with ⟨h, -⟩ | ⟨-, h⟩
      · exact h
      · exact absurd h (not_lt.2 hd2q.le)
    have hpos2 : 0 < n2 := by exact_mod_cast hn2q
    have ha1 : 0 < n1.natAbs := Int.natAbs_pos.2 hpos.ne'
    have ha2 : 0 < n2.natAbs := Int.natAbs_pos.2 hpos2.ne'
    have ea1 : ((n1.natAbs : Nat) : ℚ) = n1 := by
      rw [Nat.cast_natAbs, Int.cast_abs, abs_of_pos hn1q]
    have ea2 : ((n2.natAbs : Nat) : ℚ) = n2 := by
      rw [Nat.cast_natAbs, Int.cast_abs, abs_of_pos hn2q]
    have hle' : ((n1.natAbs : Nat) : ℚ) / d1 ≤ ((n2.natAbs : Nat) : ℚ) / d2 := by
      rw [ea1, ea2]; exact hle
    have he := floorLog2_mono _ _ _ _ ha1 hd1 ha2 hd2 hle'
    have hl1 := floorLog2_lt n1.natAbs d1 ha1 hd1
    have hl2 := floorLog2_le n2.natAbs d2 ha2 hd2
    have hu2 := floorLog2_lt n2.natAbs d2 ha2 hd2
    rw [ea1] at hl1
    rw [ea2] at hl2 hu2
    by_cases hs : max (floorLog2 n1.natAbs d1 - 52) (-1074) =
        max (floorLog2 n2.natAbs d2 - 52) (-1074)
    · unfold roundRat
      rw [if_neg hpos.ne', if_neg hpos2.ne']
      simp only [Float64.toRat]
      rw [hs, Int.sign_eq_one_of_pos hpos, Int.sign_eq_one_of_pos hpos2, one_mul, one_mul]
      apply mul_le_mul_of_nonneg_right _ (by positivity)
      have hmono := roundHalfEven_mono
        (n1.natAbs * 2 ^ (-max (floorLog2 n2.natAbs d2 - 52) (-1074)).toNat)
        (d1 * 2 ^ (max (floorLog2 n2.natAbs d2 - 52) (-1074)).toNat)
        (n2.natAbs * 2 ^ (-max (floorLog2 n2.natAbs d2 - 52) (-1074)).toNat)
        (d2 * 2 ^ (max (floorLog2 n2.natAbs d2 - 52) (-1074)).toNat)
        (by positivity) (by positivity)
        (by
          have hc : n1.natAbs * d2 ≤ n2.natAbs * d1 := by
            have : ((n1.natAbs : Nat) : ℚ) * d2 ≤ ((n2.natAbs : Nat) : ℚ) * d1 := by
              rw [div_le_div_iff₀ hd1q hd2q] at hle'
              exact hle'
            exact_mod_cast this
          calc n1.natAbs * 2 ^ (-max (floorLog2 n2.natAbs d2 - 52) (-1074)).toNat *
                (d2 * 2 ^ (max (floorLog2 n2.natAbs d2 - 52) (-1074)).toNat)
              = (n1.natAbs * d2) * (2 ^ (-max (floorLog2 n2.natAbs d2 - 52) (-1074)).toNat *
                2 ^ (max (floorLog2 n2.natAbs d2 - 52) (-1074)).toNat) := by ring
            _ ≤ (n2.natAbs * d1) * (2 ^ (-max (floorLog2 n2.natAbs d2 - 52) (-1074)).toNat *
                2 ^ (max (floorLog2 n2.natAbs d2 - 52) (-1074)).toNat) :=
              Nat.mul_le_mul_right _ hc
            _ = _ := by ring)
      exact_mod_cast hmono
    · -- the two values lie in different binades: a power of two separates them
      have he52 : floorLog2 n2.natAbs d2 < 53 := by
        have : (2 : ℚ) ^ floorLog2 n2.natAbs d2 < (2 : ℚ) ^ (53 : Int) := by
          calc (2 : ℚ) ^ floorLog2 n2.natAbs d2 ≤ (n2 : ℚ) / d2 := hl2
            _ < 2 ^ 53 := hb
            _ = (2 : ℚ) ^ (53 : Int) := by norm_num
        exact (zpow_lt_zpow_iff_right₀ (by norm_num : (1 : ℚ) < 2)).1 this
      have he12 : floorLog2 n1.natAbs d1 < floorLog2 n2.natAbs d2 := by omega
      have hlow : -1022 < floorLog2 n2.natAbs d2 := by omega
      generalize floorLog2 n1.natAbs d1 = e1 at *
      generalize floorLog2 n2.natAbs d2 = e2 at *
      have hM : (((2 : Int) ^ e2.toNat : Int) : ℚ) / 2 ^ (-e2).toNat = (2 : ℚ) ^ e2 := by
        push_cast
        exact two_zpow_toNat_sub e2
      have htpos : (0 : ℚ) < 2 ^ (-e2).toNat := by positivity
      have hpow : (2 : ℚ) ^ e2.toNat ≤ 2 ^ 52 :=
        pow_le_pow_right₀ (by norm_num) (by omega)
      have hMt : (2 : ℚ) ^ e2 * 2 ^ (-e2).toNat = 2 ^ e2.toNat := by
        rw [← two_zpow_toNat_sub e2, div_mul_cancel₀ _ htpos.ne']
      have hx1M : (n1 : ℚ) / d1 ≤ (2 : ℚ) ^ e2 :=
        le_trans hl1.le (zpow_le_zpow_right₀ (by norm_num) (by omega))
      have hb1 : |(n1 : ℚ) / d1| * 2 ^ (-e2).toNat < 2 ^ 53 := by
        rw [abs_of_pos hx1]
        calc (n1 : ℚ) / d1 * 2 ^ (-e2).toNat ≤ (2 : ℚ) ^ e2 * 2 ^ (-e2).toNat :=
              mul_le_mul_of_nonneg_right hx1M htpos.le
          _ = 2 ^ e2.toNat := hMt
          _ ≤ 2 ^ 52 := hpow
          _ < 2 ^ 53 := by norm_num
      have hb2' : |(n2 : ℚ) / d2| * 2 ^ (-e2).toNat < 2 ^ 53 := by
        rw [abs_of_pos hx2]
        calc (n2 : ℚ) / d2 * 2 ^ (-e2).toNat < (2 : ℚ) ^ (e2 + 1) * 2 ^ (-e2).toNat :=
              mul_lt_mul_of_pos_right hu2 htpos
          _ = 2 * 2 ^ e2.toNat := by
              rw [zpow_add₀ (by norm_num), zpow_one, mul_comm ((2 : ℚ) ^ e2) 2, mul_assoc, hMt]
          _ ≤ 2 * 2 ^ 52 := by linarith
          _ = 2 ^ 53 := by norm_num
      have r1 := roundRat_le n1 d1 ((2 : Int) ^ e2.toNat) (-e2).toNat hd1 (by omega) hb1
        (by rw [hM]; exact hx1M)
      have r2 := le_roundRat n2 d2 ((2 : Int) ^ e2.toNat) (-e2).toNat hd2 (by omega) hb2'
        (by rw [hM]; exact hl2)
      exact le_trans r1 r2


/-- The float quotient grows with the dividend, for quotients from 0 to `2 ^ 53`. -/
theorem float_div_mono (x1 x2 y : Float64) (hy : y.toRat ≠ 0)
    (h0 : 0 ≤ x1.toRat / y.toRat) (hle : x1.toRat / y.toRat ≤ x2.toRat / y.toRat)
    (hb : x2.toRat / y.toRat < 2 ^ 53) : (x1.div y).toRat ≤ (x2.div y).toRat := by
  unfold Float64.div
  apply roundRat_mono _ _ _ _ (float_div_den_pos x1 y hy) (float_div_den_pos x2 y hy)
  · rw [float_div_value x1 y hy]; exact h0
  · rw [float_div_value x1 y hy, float_div_value x2 y hy]; exact hle
  · rw [float_div_value x2 y hy]; exact hb

/-- The float sum grows with the exact sum, for sums from 0 to `2 ^ 53`. -/
theorem float_add_mono (x1 y1 x2 y2 : Float64)
    (h0 : 0 ≤ x1.toRat + y1.toRat) (hle : x1.toRat + y1.toRat ≤ x2.toRat + y2.toRat)
    (hb : x2.toRat + y2.toRat < 2 ^ 53) : (x1.add y1).toRat ≤ (x2.add y2).toRat := by
  unfold Float64.add
  apply roundRat_mono _ _ _ _ (Nat.mul_pos (float_den_pos x1) (float_den_pos y1))
    (Nat.mul_pos (float_den_pos x2) (float_den_pos y2))
  · rw [float_add_value]; exact h0
  · rw [float_add_value, float_add_value]; exact hle
  · rw [float_add_value]; exact hb

/-- The conversion to `int64` grows with the value, for values that are not negative. -/
theorem int64_mono (x y : Float64) (h0 : 0 ≤ x.toRat) (hle : x.toRat ≤ y.toRat) :
    int64 x ≤ int64 y := by
  have hd : (0 : ℚ) < x.den := by exact_mod_cast float_den_pos x
  have hdz : (0 : Int) < x.den := by exact_mod_cast float_den_pos x
  have hnum : 0 ≤ x.num := by
    rw [toRat_eq] at h0
    rcases (div_nonneg_iff.1 h0) with ⟨h2, -⟩ | ⟨-, h3⟩
    · exact_mod_cast h2
    · exact absurd h3 (not_le.2 hd)
  have hB : 0 ≤ int64 x := Int.tdiv_nonneg hnum hdz.le
  apply le_int64 y _ hB
  refine le_trans ?_ hle
  rw [toRat_eq, le_div_iff₀ hd]
  have : int64 x * x.den ≤ x.num := by
    unfold int64
    rw [Int.tdiv_eq_ediv hnum hdz.le]
    exact Int.ediv_mul_le _ hdz.ne'
  exact_mod_cast this

/-- The method `Hours` grows with the duration, for durations from 0 to `2 ^ 63`. -/
theorem Hours_mono (d1 d2 : Int) (h0 : 0 ≤ d1) (hle : d1 ≤ d2) (h2 : d2 ≤ 2 ^ 63) :
    (Hours d1).toRat ≤ (Hours d2).toRat := by
  have h1 : d1 ≤ 2 ^ 63 := le_trans hle h2
  have h02 : 0 ≤ d2 := le_trans h0 hle
  obtain ⟨a0, a1, -, -, a5⟩ := Hours_bounds d1 h0 h1
  obtain ⟨b0, b1, b2, -, -⟩ := Hours_bounds d2 h02 h2
  rcases lt_or_ge (d1 / 3600000000000) (d2 / 3600000000000) with hlt | hge
  · have hA := b2 (d1 / 3600000000000 + 1) (by unfold Hour; omega)
    exact le_trans a5 hA
  · have heq : d1 / 3600000000000 = d2 / 3600000000000 := by omega
    have hn : d1 % 3600000000000 ≤ d2 % 3600000000000 := by omega
    have e63 : (2 : Int) ^ 63 = 9223372036854775808 := by norm_num
    rw [e63] at h1 h2
    rw [Hours_of_nonneg d1 h0, Hours_of_nonneg d2 h02, heq]
    have hh0 : 0 ≤ d2 / 3600000000000 := by omega
    have hh1 : d2 / 3600000000000 ≤ 2562047 := by omega
    have hn10 : 0 ≤ d1 % 3600000000000 := by omega
    have hn21 : d2 % 3600000000000 < 3600000000000 := by omega
    generalize d2 / 3600000000000 = hour at *
    generalize d1 % 3600000000000 = nsec1 at *
    generalize d2 % 3600000000000 = nsec2 at *
    have hhq0 : (0 : ℚ) ≤ hour := by exact_mod_cast hh0
    have hhq1 : (hour : ℚ) ≤ 2562047 := by exact_mod_cast hh1
    have hq1 : (0 : ℚ) ≤ nsec1 := by exact_mod_cast hn10
    have hq12 : (nsec1 : ℚ) ≤ nsec2 := by exact_mod_cast hn
    have hq2 : (nsec2 : ℚ) < 3600000000000 := by exact_mod_cast hn21
    have eh : (float64 hour).toRat = hour := by
      apply float64_toRat
      rw [abs_of_nonneg hhq0]
      linarith
    have en1 : (float64 nsec1).toRat = nsec1 := by
      apply float64_toRat
      rw [abs_of_nonneg hq1]
      linarith
    have en2 : (float64 nsec2).toRat = nsec2 := by
      apply float64_toRat
      rw [abs_of_nonneg (le_trans hq1 hq12)]
      linarith
    have eH : (float64 3600000000000).toRat = 3600000000000 := by
      have := float64_toRat 3600000000000 (by norm_num)
      simpa using this
    have hH : (float64 3600000000000).toRat ≠ 0 := by rw [eH]; norm_num
    have hr1 : (0 : ℚ) ≤ (nsec1 : ℚ) / 3600000000000 := by positivity
    have hr12 : (nsec1 : ℚ) / 3600000000000 ≤ (nsec2 : ℚ) / 3600000000000 :=
      div_le_div_of_nonneg_right hq12 (by norm_num)
    have hr2 : (nsec2 : ℚ) / 3600000000000 < 1 := by
      rw [div_lt_one (by norm_num)]
      exact hq2
    have hF := float_div_mono (float64 nsec1) (float64 nsec2) (float64 3600000000000) hH
      (by rw [en1, eH]; exact hr1) (by rw [en1, en2, eH]; exact hr12)
      (by rw [en2, eH]; linarith)
    have hF10 : 0 ≤ ((float64 nsec1).div (float64 3600000000000)).toRat := by
      have := le_float_div (float64 nsec1) (float64 3600000000000) hH 0 0 (by omega)
        (by rw [en1, eH, abs_of_nonneg hr1]; linarith) (by rw [en1, eH]; simpa using hr1)
      simpa using this
    have hF21 : ((float64 nsec2).div (float64 3600000000000)).toRat ≤ 1 := by
      have := float_div_le (float64 nsec2) (float64 3600000000000) hH 1 0 (by omega)
        (by rw [en2, eH, abs_of_nonneg (le_trans hr1 hr12)]; linarith)
        (by rw [en2, eH]; simpa using hr2.le)
      simpa using this
    apply float_add_mono
    · rw [eh]; linarith
    · linarith
    · rw [eh]; linarith

/-- The day count grows with the duration, for durations from 0 to `2 ^ 63`. -/
theorem daysToExprire_mono (d1 d2 : Int) (h0 : 0 ≤ d1) (hle : d1 ≤ d2) (h2 : d2 ≤ 2 ^ 63) :
    daysToExprire d1 ≤ daysToExprire d2 := by
  have h1 : d1 ≤ 2 ^ 63 := le_trans hle h2
  have h02 : 0 ≤ d2 := le_trans h0 hle
  obtain ⟨a0, a1, -⟩ := Hours_bounds d1 h0 h1
  obtain ⟨b0, b1, -⟩ := Hours_bounds d2 h02 h2
  have hm := Hours_mono d1 d2 h0 hle h2
  have h24 : (float64 24).toRat ≠ 0 := by rw [float64_24]; norm_num
  unfold daysToExprire
  have hq0 : 0 ≤ (Hours d1).toRat / 24 := by positivity
  have hq : (Hours d1).toRat / 24 ≤ (Hours d2).toRat / 24 :=
    div_le_div_of_nonneg_right hm (by norm_num)
  have hqb : (Hours d2).toRat / 24 < 2 ^ 53 := by
    rw [div_lt_iff₀ (by norm_num)]
    norm_num
    linarith
  apply int64_mono
  · have := le_float_div (Hours d1) (float64 24) h24 0 0 (by omega)
      (by
        rw [float64_24, abs_of_nonneg hq0, pow_zero, mul_one]
        exact lt_of_le_of_lt hq hqb) (by rw [float64_24]; simpa using hq0)
    simpa using this
  · apply float_div_mono _ _ _ h24
    · rw [float64_24]; exact hq0
    · rw [float64_24]; exact hq
    · rw [float64_24]; exact hqb

/-! ## Exactness below 170 days -/

/-- A nanosecond before the `T + 1`-th whole day the day count is still `T`, for `T < 170`. -/
theorem boundary_days :
    ∀ T ∈ List.range 170, daysToExprire (((T : Int) + 1) * (24 * Hour) - 1) = T := by
  decide!

/-- Below 170 days the day count is the exact quotient. -/
theorem daysToExprire_small (d : Int) (h0 : 0 ≤ d) (h1 : d < 170 * (24 * Hour)) :
    daysToExprire d = d / (24 * Hour) := by
  have hD : 24 * Hour = 86400000000000 := by unfold Hour; norm_num
  have e63 : (2 : Int) ^ 63 = 9223372036854775808 := by norm_num
  rw [hD] at h1 ⊢
  have hq0 : 0 ≤ d / 86400000000000 := by omega
  have hq1 : d / 86400000000000 < 170 := by omega
  have hlo := le_daysToExprire d (d / 86400000000000) h0 (by rw [e63]; omega) hq0
    (by rw [hD]; omega)
  have hb := boundary_days (d / 86400000000000).toNat
    (List.mem_range.2 (by omega))
  rw [Int.toNat_of_nonneg hq0, hD] at hb
  have hm := daysToExprire_mono d ((d / 86400000000000 + 1) * 86400000000000 - 1) h0
    (by omega) (by rw [e63]; omega)
  omega

/-- The day count of a duration that is not negative. -/
theorem daysToExprire_nonneg_cases (d : Int) (h0 : 0 ≤ d) (h1 : d ≤ 2 ^ 63) :
    (d % (24 * Hour) + 1000000 ≤ 24 * Hour → daysToExprire d = d / (24 * Hour)) ∧
    d / (24 * Hour) ≤ daysToExprire d ∧ daysToExprire d ≤ d / (24 * Hour) + 1 := by
  have hD : 24 * Hour = 86400000000000 := by unfold Hour; norm_num
  rw [hD]
  have hq0 : 0 ≤ d / 86400000000000 := by omega
  have hlo := le_daysToExprire d (d / 86400000000000) h0 h1 hq0 (by rw [hD]; omega)
  have hhi := daysToExprire_lt d (d / 86400000000000 + 2) h0 h1 (by rw [hD]; omega)
  refine ⟨?_, hlo, by omega⟩
  intro hm
  have := daysToExprire_lt d (d / 86400000000000 + 1) h0 h1 (by rw [hD]; omega)
  omega

/-- The three cases of `time.Since`. -/
theorem Since_cases (now t : Int) :
    (now - t < -9223372036854775808 ∧ Since now t = -9223372036854775808) ∨
    (9223372036854775807 < now - t ∧ Since now t = 9223372036854775807) ∨
    (-9223372036854775808 ≤ now - t ∧ now - t ≤ 9223372036854775807 ∧
      Since now t = now - t) := by
  have e1 : minDuration = -9223372036854775808 := by unfold minDuration; norm_num
  have e2 : maxDuration = 9223372036854775807 := by unfold maxDuration; norm_num
  unfold Since
  rw [e1, e2]
  by_cases h1 : now - t < -9223372036854775808
  · rw [if_pos h1]
    exact Or.inl ⟨h1, rfl⟩
  · rw [if_neg h1]
    by_cases h2 : 9223372036854775807 < now - t
    · rw [if_pos h2]
      exact Or.inr (Or.inl ⟨h2, rfl⟩)
    · rw [if_neg h2]
      exact Or.inr (Or.inr ⟨by omega, by omega, rfl⟩)

/-- Counterexample for C5. A certificate that expires 9.5 days from now gives -9, not
`floor (-9.5) = -10`; one that expired 171 days less a nanosecond ago gives 171, not 170; one
that expires 200000 days from now gives -106751, the saturated duration. -/
theorem daysToExprire_not_floor :
    (daysToExprire (Since 0 (19 * (12 * Hour))) = -9 ∧
      (0 - 19 * (12 * Hour)) / (24 * Hour) = -10) ∧
    (daysToExprire (Since (171 * (24 * Hour) - 1) 0) = 171 ∧
      (171 * (24 * Hour) - 1 - 0) / (24 * Hour) = 170) ∧
    (daysToExprire (Since 0 (200000 * (24 * Hour))) = -106751 ∧
      (0 - 200000 * (24 * Hour)) / (24 * Hour) = -200000) := by
  decide

/-- Claim C5, amended. When `now - notAfter` fits a `Duration`, the value `daysToExprire` is
the quotient of `now - notAfter` by 24 hours rounded towards zero (not the floor), provided
the difference is less than 170 days in magnitude, or its remainder is not within the last
millisecond before a whole day; in any case it is that quotient or the next integer away from
zero. -/
theorem daysToExprire_tdiv (now notAfter : Int)
    (hmin : minDuration ≤ now - notAfter) (hmax : now - notAfter ≤ maxDuration) :
    (|now - notAfter| < 170 * (24 * Hour) →
      daysToExprire (Since now notAfter) = (now - notAfter).tdiv (24 * Hour)) ∧
    (|(now - notAfter).tmod (24 * Hour)| + 1000000 ≤ 24 * Hour →
      daysToExprire (Since now notAfter) = (now - notAfter).tdiv (24 * Hour)) ∧
    (daysToExprire (Since now notAfter) = (now - notAfter).tdiv (24 * Hour) ∨
      daysToExprire (Since now notAfter) =
        (now - notAfter).tdiv (24 * Hour) + (now - notAfter).sign) := by
  have e1 : minDuration = -9223372036854775808 := by unfold minDuration; norm_num
  have e2 : maxDuration = 9223372036854775807 := by unfold maxDuration; norm_num
  have e63 : (2 : Int) ^ 63 = 9223372036854775808 := by norm_num
  rw [e1] at hmin
  rw [e2] at hmax
  replace hmin : (-9223372036854775808 : Int) ≤ now - notAfter := hmin
  replace hmax : now - notAfter ≤ (9223372036854775807 : Int) := hmax
  have hS : Since now notAfter = now - notAfter := by
    rcases Since_cases now notAfter with ⟨h, -⟩ | ⟨h, -⟩ | ⟨-, -, h⟩
    · omega
    · omega
    · exact h
  rw [hS]
  have hD : 24 * Hour = 86400000000000 := by unfold Hour; norm_num
  have hDpos : (0 : Int) ≤ 24 * Hour := by rw [hD]; norm_num
  generalize now - notAfter = d at *
  rcases le_or_lt 0 d with h0 | h0
  · obtain ⟨c1, c2, c3⟩ := daysToExprire_nonneg_cases d h0 (by rw [e63]; omega)
    rw [Int.tdiv_eq_ediv h0 hDpos, Int.tmod_eq_emod h0 hDpos]
    refine ⟨fun hs => daysToExprire_small d h0 (by rw [abs_of_nonneg h0] at hs; exact hs), ?_⟩
    constructor
    · intro hm
      apply c1
      rw [abs_of_nonneg (Int.emod_nonneg _ (by rw [hD]; norm_num))] at hm
      exact hm
    · rcases eq_or_lt_of_le c2 with h | h
      · exact Or.inl h.symm
      · right
        have hpos : 0 < d := by
          by_contra hc
          have : d = 0 := by omega
          subst this
          have e : daysToExprire 0 = 0 := by decide
          rw [e] at h
          simp at h
        rw [Int.sign_eq_one_of_pos hpos]
        omega
  · obtain ⟨c1, c2, c3⟩ := daysToExprire_nonneg_cases (-d) (by omega) (by rw [e63]; omega)
    have e1 : d = -(-d) := by ring
    have hneg : daysToExprire d = -daysToExprire (-d) := by
      conv_lhs => rw [e1]
      exact daysToExprire_neg (-d)
    have htd : d.tdiv (24 * Hour) = -((-d) / (24 * Hour)) := by
      conv_lhs => rw [e1]
      rw [Int.neg_tdiv, Int.tdiv_eq_ediv (by omega) hDpos]
    have htm : d.tmod (24 * Hour) = -((-d) % (24 * Hour)) := by
      conv_lhs => rw [e1]
      rw [int_neg_tmod, Int.tmod_eq_emod (by omega) hDpos]
    rw [hneg, htd, htm, Int.sign_eq_neg_one_of_neg h0]
    refine ⟨fun hs => ?_, ?_⟩
    · rw [daysToExprire_small (-d) (by omega) (by rw [abs_of_neg h0] at hs; exact hs)]
    constructor
    · intro hm
      rw [abs_neg, abs_of_nonneg (Int.emod_nonneg _ (by rw [hD]; norm_num))] at hm
      rw [c1 hm]
    · omega

/-- Witness for C5: a certificate that expires 9.5 days from now gives the truncated
quotient -9. -/
theorem daysToExprire_tdiv_witness :
    minDuration ≤ 0 - 19 * (12 * Hour) ∧ 0 - 19 * (12 * Hour) ≤ maxDuration ∧
    |(0 - 19 * (12 * Hour)).tmod (24 * Hour)| + 1000000 ≤ 24 * Hour ∧
    daysToExprire (Since 0 (19 * (12 * Hour))) = (0 - 19 * (12 * Hour)).tdiv (24 * Hour) ∧
    (0 - 19 * (12 * Hour)).tdiv (24 * Hour) = -9 :=
  ⟨by decide, by decide, by decide,
    (daysToExprire_tdiv 0 (19 * (12 * Hour)) (by decide) (by decide)).2.1 (by decide),
    by decide⟩

/-- Negation on `int64` away from the smallest value. -/
theorem neg64_eq (T : Int) (h1 : 1 ≤ T) (h2 : T < 2 ^ 63) : neg64 T = -T := by
  have e63 : (2 : Int) ^ 63 = 9223372036854775808 := by norm_num
  have e64 : (2 : Int) ^ 64 = 18446744073709551616 := by norm_num
  unfold neg64
  rw [e63] at h2 ⊢
  rw [e64]
  omega

/-- Counterexample for C6. With a threshold of 171 days a certificate that expires 171 days
less a nanosecond from now is not flagged; with a threshold of 106752 days a certificate that
expires exactly 106752 days from now is flagged. -/
theorem expiringSoon_not_exact :
    (expiringSoon ⟨79039545, 171⟩ 0 ⟨171 * (24 * Hour) - 1⟩ = false ∧
      171 * (24 * Hour) - 1 - 0 < 171 * (24 * Hour)) ∧
    (expiringSoon ⟨79039545, 106752⟩ 0 ⟨106752 * (24 * Hour)⟩ = true ∧
      106752 * (24 * Hour) ≤ 106752 * (24 * Hour) - 0) := by
  decide

/-- Claim C6, amended. For a threshold `T` with `1 ≤ T`, the test is true whenever the
certificate has expired or expires at most `T` days less a millisecond after now; it is false
whenever `T ≤ 106751` and the certificate expires `T` days or more after now; and for
`T ≤ 170` it is true exactly when the certificate has expired or expires less than `T` days
after now. -/
theorem expiringSoon_spec (cfg : Config) (now : Int) (cert : Certificate)
    (hT1 : 1 ≤ cfg.sslDaysToExipireAlert) (hT2 : cfg.sslDaysToExipireAlert < 2 ^ 63) :
    (cert.NotAfter - now + 1000000 ≤ cfg.sslDaysToExipireAlert * (24 * Hour) →
      expiringSoon cfg now cert = true) ∧
    (cfg.sslDaysToExipireAlert ≤ 106751 →
      cfg.sslDaysToExipireAlert * (24 * Hour) ≤ cert.NotAfter - now →
      expiringSoon cfg now cert = false) ∧
    (cfg.sslDaysToExipireAlert ≤ 170 →
      (expiringSoon cfg now cert = true ↔
        cert.NotAfter - now < cfg.sslDaysToExipireAlert * (24 * Hour))) := by
  have hD : 24 * Hour = 86400000000000 := by unfold Hour; norm_num
  have e63 : (2 : Int) ^ 63 = 9223372036854775808 := by norm_num
  unfold expiringSoon
  rw [neg64_eq _ hT1 hT2, hD]
  generalize cfg.sslDaysToExipireAlert = T at *
  generalize cert.NotAfter = t at *
  rw [e63] at hT2
  have hmin := daysToExprire_neg 9223372036854775808
  have part2 : T ≤ 106751 → T * 86400000000000 ≤ t - now →
      decide (daysToExprire (Since now t) > -T) = false := by
    intro hT3 h
    rw [decide_eq_false_iff_not, not_lt]
    rcases Since_cases now t with ⟨h1, hS⟩ | ⟨h1, hS⟩ | ⟨h1, h2, hS⟩
    · rw [hS]
      have := le_daysToExprire 9223372036854775808 T (by norm_num) (by norm_num) (by omega)
        (by rw [hD]; omega)
      omega
    · omega
    · rw [hS]
      have := le_daysToExprire (-(now - t)) T (by omega) (by rw [e63]; omega) (by omega)
        (by rw [hD]; omega)
      have hn := daysToExprire_neg (-(now - t))
      rw [neg_neg] at hn
      omega
  refine ⟨?_, part2, ?_⟩
  · intro h
    rw [decide_eq_true_eq]
    rcases Since_cases now t with ⟨h1, hS⟩ | ⟨h1, hS⟩ | ⟨h1, h2, hS⟩
    · rw [hS]
      have := daysToExprire_lt 9223372036854775808 T (by norm_num) (by norm_num)
        (by rw [hD]; omega)
      omega
    · rw [hS]
      have := le_daysToExprire 9223372036854775807 0 (by norm_num) (by norm_num) le_rfl
        (by rw [hD]; norm_num)
      omega
    · rw [hS]
      rcases le_or_lt 0 (now - t) with h0 | h0
      · have := le_daysToExprire (now - t) 0 h0 (by rw [e63]; omega) le_rfl
          (by rw [hD]; omega)
        omega
      · have := daysToExprire_lt (-(now - t)) T (by omega) (by rw [e63]; omega)
          (by rw [hD]; omega)
        have hn := daysToExprire_neg (-(now - t))
        rw [neg_neg] at hn
        omega
  · intro hT4
    constructor
    · intro htrue
      by_contra hc
      have := part2 (by omega) (by omega)
      rw [htrue] at this
      cases this
    · intro hlt
      rw [decide_eq_true_eq]
      rcases Since_cases now t with ⟨h1, hS⟩ | ⟨h1, hS⟩ | ⟨h1, h2, hS⟩
      · omega
      · rw [hS]
        have := le_daysToExprire 9223372036854775807 0 (by norm_num) (by norm_num) le_rfl
          (by rw [hD]; norm_num)
        omega
      · rw [hS]
        rcases le_or_lt 0 (now - t) with h0 | h0
        · have := le_daysToExprire (now - t) 0 h0 (by rw [e63]; omega) le_rfl
            (by rw [hD]; omega)
          omega
        · have hsm := daysToExprire_small (-(now - t)) (by omega) (by rw [hD]; omega)
          rw [hD] at hsm
          have hn := daysToExprire_neg (-(now - t))
          rw [neg_neg] at hn
          omega

/-- Witness for C6: with the threshold 10, a certificate that expires 3 days from now is
flagged and one that expires 10 days from now is not. -/
theorem expiringSoon_spec_witness :
    1 ≤ cfg10.sslDaysToExipireAlert ∧ cfg10.sslDaysToExipireAlert < 2 ^ 63 ∧
    expiringSoon cfg10 0 ⟨3 * (24 * Hour)⟩ = true ∧
    expiringSoon cfg10 0 ⟨10 * (24 * Hour)⟩ = false :=
  ⟨by decide, by decide,
    (expiringSoon_spec cfg10 0 ⟨3 * (24 * Hour)⟩ (by decide) (by decide)).1 (by decide),
    (expiringSoon_spec cfg10 0 ⟨10 * (24 * Hour)⟩ (by decide) (by decide)).2.1
      (by decide) (by decide)⟩

end SiteMonitor
